import Mathlib

/-!
Verification of the arlo-e2e storage and audit layer.

This file gives a shallow embedding, in Lean 4, of the parts of the
votingworks/arlo-e2e repository that its specification talks about:

* `src/arlo_e2e/manifest.py` — the content-addressed manifest (hash-verified
  writes and reads, merging of partial manifests, sealing),
* `src/arlo_e2e/publish.py` — writing and loading a sealed tally directory,
* `src/arlo_e2e/arlo_audit_report.py` — parsing an Arlo audit report.

Python machine state is made explicit: the file system is an association
list from path segments to file contents, Python dicts are insertion-ordered
association lists, fallible code returns `Option` or `Except`.  Functions
from the Python standard library (hashlib sha256, base64, str.encode) are
implemented faithfully from their specifications.  Functions from modules of
the repository that are not part of the sources under verification
(`arlo_e2e/utils.py`, `arlo_e2e/dominion.py`, `arlo_e2e/tally.py`) and
external collaborators (ElectionGuard serialization, the pandas CSV reader)
are modelled from the specification; each such definition carries a doc
comment saying so.
-/

set_option maxRecDepth 20000

namespace ArloE2E

/-! ### Python string primitives

Strings are processed through their character lists, which keeps every
operation structurally recursive and kernel-reducible.  These model the
corresponding Python `str` methods. -/

/-- Python `sep.join(parts)`. -/
def pyJoin (sep : String) : List String → String
  | [] => ""
  | [x] => x
  | x :: rest => x ++ sep ++ pyJoin sep rest

/-- Auxiliary for `pySplitOn`, with explicit fuel (the input length bounds the
number of steps). -/
def pySplitOnAux (sep : List Char) : Nat → List Char → List Char → List (List Char)
  | 0, rest, acc => [acc.reverse ++ rest]
  | _ + 1, [], acc => [acc.reverse]
  | fuel + 1, c :: rest, acc =>
    if sep.isPrefixOf (c :: rest) then
      acc.reverse :: pySplitOnAux sep fuel ((c :: rest).drop sep.length) []
    else
      pySplitOnAux sep fuel rest (c :: acc)

/-- Python `s.split(sep)` for a nonempty separator `sep`. -/
def pySplitOn (s sep : String) : List String :=
  (pySplitOnAux sep.data s.data.length s.data []).map fun cs => ⟨cs⟩

/-- Python `s.startswith(t)`. -/
def pyStartsWith (s t : String) : Bool :=
  t.data.isPrefixOf s.data

/-- Python `s.endswith(t)`. -/
def pyEndsWith (s t : String) : Bool :=
  t.data.reverse.isPrefixOf s.data.reverse

/-- Python `s[n:]`. -/
def strDrop (s : String) (n : Nat) : String := ⟨s.data.drop n⟩

/-- Python `s[0:n]`. -/
def strTake (s : String) (n : Nat) : String := ⟨s.data.take n⟩

/-- Length of a string in characters (Python `len` on `str`). -/
def strLen (s : String) : Nat := s.data.length

/-- Python `str.splitlines` for data whose only line separator is `"\n"`:
splitting on the newline character, without a final empty line when the
string ends in a newline. -/
def pySplitlines (s : String) : List String :=
  if s = "" then []
  else
    let parts := pySplitOn s "\n"
    if pyEndsWith s "\n" then parts.dropLast else parts

/-- Decimal digit character. -/
def digitChar (d : Nat) : Char := Char.ofNat (48 + d)

/-- Auxiliary for `natRepr`, with fuel. -/
def natReprAux : Nat → Nat → List Char
  | 0, _ => []
  | fuel + 1, n =>
    if n < 10 then [digitChar n]
    else natReprAux fuel (n / 10) ++ [digitChar (n % 10)]

/-- Decimal representation of a natural number (Python `str(n)`). -/
def natRepr (n : Nat) : String := ⟨natReprAux (n + 1) n⟩

/-- Parse a decimal digit character. -/
def digitVal (c : Char) : Option Nat :=
  if 48 ≤ c.toNat ∧ c.toNat ≤ 57 then some (c.toNat - 48) else none

/-- Auxiliary for `parseNat`. -/
def parseNatAux : List Char → Nat → Option Nat
  | [], acc => some acc
  | c :: rest, acc =>
    match digitVal c with
    | some d => parseNatAux rest (acc * 10 + d)
    | none => none

/-- Parse a string of decimal digits as a natural number; `none` when the
string is empty or contains a non-digit (Python `int(s)` raising). -/
def parseNat (s : String) : Option Nat :=
  match s.data with
  | [] => none
  | cs => parseNatAux cs 0

/-! ### Python dict and file-system model

A Python dict is an insertion-ordered association list with distinct keys:
`dinsert` replaces the value in place when the key is present (as Python
`d[k] = v` does) and appends otherwise; `dlookup` finds the entry. -/

/-- Lookup in an association list (Python `d[k]` / `d.get(k)`). -/
def dlookup {α β : Type} [DecidableEq α] (k : α) : List (α × β) → Option β
  | [] => none
  | (k2, v) :: rest => if k2 = k then some v else dlookup k rest

/-- Python `d[k] = v`: replace in place when present, append otherwise. -/
def dinsert {α β : Type} [DecidableEq α] (k : α) (v : β) : List (α × β) → List (α × β)
  | [] => [(k, v)]
  | (k2, v2) :: rest =>
    if k2 = k then (k2, v) :: rest else (k2, v2) :: dinsert k v rest

/-- A file system: contents of regular files, keyed by their path, which is
kept as its list of segments (the first segment is the root directory). -/
def FS : Type := List (List String × String)

/-! ### UTF-8, SHA-256 and base64

These model Python `str.encode("utf-8")`, `hashlib.sha256` and
`base64.b64encode` from their specifications (RFC 3629, FIPS 180-4,
RFC 4648).  Bytes are naturals below 256; 32-bit words are naturals reduced
modulo `2 ^ 32`. -/

/-- UTF-8 encoding of one character (by code point; Lean `Char` excludes
surrogates, as Python `str` code points on the encode path). -/
def utf8Char (c : Char) : List Nat :=
  let n := c.toNat
  if n < 128 then [n]
  else if n < 2048 then
    [192 ||| (n >>> 6), 128 ||| (n &&& 63)]
  else if n < 65536 then
    [224 ||| (n >>> 12), 128 ||| ((n >>> 6) &&& 63), 128 ||| (n &&& 63)]
  else
    [240 ||| (n >>> 18), 128 ||| ((n >>> 12) &&& 63),
      128 ||| ((n >>> 6) &&& 63), 128 ||| (n &&& 63)]

/-- Python `s.encode("utf-8")` as a list of bytes. -/
def utf8Encode (s : String) : List Nat :=
  s.data.flatMap utf8Char

/-- Python `len(s.encode("utf-8"))`. -/
def utf8Len (s : String) : Nat := (utf8Encode s).length

/-- The modulus of 32-bit words. -/
def M32 : Nat := 4294967296

/-- Right rotation of a 32-bit word by `n` places. -/
def rotr (n x : Nat) : Nat := ((x >>> n) ||| (x <<< (32 - n))) % M32

/-- SHA-256 round constants (FIPS 180-4, section 4.2.2), as decimal
values. -/
def sha256K : List Nat :=
  [1116352408, 1899447441, 3049323471, 3921009573, 961987163, 1508970993,
   2453635748, 2870763221, 3624381080, 310598401, 607225278, 1426881987,
   1925078388, 2162078206, 2614888103, 3248222580, 3835390401, 4022224774,
   264347078, 604807628, 770255983, 1249150122, 1555081692, 1996064986,
   2554220882, 2821834349, 2952996808, 3210313671, 3336571891, 3584528711,
   113926993, 338241895, 666307205, 773529912, 1294757372, 1396182291,
   1695183700, 1986661051, 2177026350, 2456956037, 2730485921, 2820302411,
   3259730800, 3345764771, 3516065817, 3600352804, 4094571909, 275423344,
   430227734, 506948616, 659060556, 883997877, 958139571, 1322822218,
   1537002063, 1747873779, 1955562222, 2024104815, 2227730452, 2361852424,
   2428436474, 2756734187, 3204031479, 3329325298]

/-- SHA-256 initial hash value (FIPS 180-4, section 5.3.3), as decimal
values. -/
def sha256H0 : List Nat :=
  [1779033703, 3144134277, 1013904242, 2773480762,
   1359893119, 2600822924, 528734635, 1541459225]

/-- Big-endian byte decomposition of a natural number into `k` bytes. -/
def beBytes : Nat → Nat → List Nat
  | 0, _ => []
  | k + 1, n => beBytes k (n >>> 8) ++ [n % 256]

/-- SHA-256 message padding: append `0x80`, zeros, and the 64-bit big-endian
bit length, reaching a multiple of 64 bytes. -/
def sha256Pad (msg : List Nat) : List Nat :=
  let len := msg.length
  let padZeros := (55 + 64 - len % 64) % 64
  msg ++ [128] ++ List.replicate padZeros 0 ++ beBytes 8 (len * 8)

/-- Split a byte list into 64-byte chunks (fuel-driven; the fuel is the
input length). -/
def chunk64Aux : Nat → List Nat → List (List Nat)
  | 0, _ => []
  | _ + 1, [] => []
  | fuel + 1, l => l.take 64 :: chunk64Aux fuel (l.drop 64)

/-- Split a byte list into 64-byte chunks. -/
def chunk64 (l : List Nat) : List (List Nat) := chunk64Aux l.length l

/-- Combine bytes into big-endian 32-bit words. -/
def bytesToWords : List Nat → List Nat
  | b0 :: b1 :: b2 :: b3 :: rest =>
    (((b0 * 256 + b1) * 256 + b2) * 256 + b3) :: bytesToWords rest
  | _ => []

/-- FIPS 180-4 sigma-0 (message schedule). -/
def ssig0 (x : Nat) : Nat := (rotr 7 x) ^^^ (rotr 18 x) ^^^ (x >>> 3)

/-- FIPS 180-4 sigma-1 (message schedule). -/
def ssig1 (x : Nat) : Nat := (rotr 17 x) ^^^ (rotr 19 x) ^^^ (x >>> 10)

/-- FIPS 180-4 Sigma-0 (compression). -/
def bsig0 (x : Nat) : Nat := (rotr 2 x) ^^^ (rotr 13 x) ^^^ (rotr 22 x)

/-- FIPS 180-4 Sigma-1 (compression). -/
def bsig1 (x : Nat) : Nat := (rotr 6 x) ^^^ (rotr 11 x) ^^^ (rotr 25 x)

/-- Extend the 16 message words to 64 by the SHA-256 schedule recurrence. -/
def extendW : Nat → List Nat → List Nat
  | 0, w => w
  | n + 1, w =>
    let i := w.length
    let nw := (w.getD (i - 16) 0 + ssig0 (w.getD (i - 15) 0) +
      w.getD (i - 7) 0 + ssig1 (w.getD (i - 2) 0)) % M32
    extendW n (w ++ [nw])

/-- One SHA-256 compression round over the eight-word working state. -/
def sha256Round (state : List Nat) (kw : Nat × Nat) : List Nat :=
  match state with
  | [a, b, c, d, e, f, g, h] =>
    let ch := (e &&& f) ^^^ ((e ^^^ (M32 - 1)) &&& g)
    let maj := (a &&& b) ^^^ (a &&& c) ^^^ (b &&& c)
    let t1 := (h + bsig1 e + ch + kw.1 + kw.2) % M32
    let t2 := (bsig0 a + maj) % M32
    [(t1 + t2) % M32, a, b, c, (d + t1) % M32, e, f, g]
  | s => s

/-- Process one 64-byte chunk, updating the eight-word hash state. -/
def sha256Chunk (h : List Nat) (chunk : List Nat) : List Nat :=
  let w := extendW 48 (bytesToWords chunk)
  let out := (sha256K.zip w).foldl sha256Round h
  (h.zip out).map fun p => (p.1 + p.2) % M32

/-- SHA-256 digest of a byte list, as 32 bytes. -/
def sha256Bytes (msg : List Nat) : List Nat :=
  (((chunk64 (sha256Pad msg)).foldl sha256Chunk sha256H0).map (beBytes 4)).flatten

/-- The base64 alphabet (RFC 4648). -/
def b64Alphabet : List Char :=
  "ABCDEFGHIJKLMNOPQRSTUVWXYZabcdefghijklmnopqrstuvwxyz0123456789+/".data

/-- Character of one 6-bit group. -/
def b64Char (n : Nat) : Char := b64Alphabet.getD n 'A'

/-- Base64-encode a byte list, with padding (RFC 4648). -/
def b64encodeList : List Nat → List Char
  | [] => []
  | [b0] =>
    [b64Char (b0 >>> 2), b64Char ((b0 &&& 3) <<< 4), '=', '=']
  | [b0, b1] =>
    [b64Char (b0 >>> 2), b64Char (((b0 &&& 3) <<< 4) ||| (b1 >>> 4)),
      b64Char ((b1 &&& 15) <<< 2), '=']
  | b0 :: b1 :: b2 :: rest =>
    b64Char (b0 >>> 2) :: b64Char (((b0 &&& 3) <<< 4) ||| (b1 >>> 4)) ::
      b64Char (((b1 &&& 15) <<< 2) ||| (b2 >>> 6)) :: b64Char (b2 &&& 63) ::
      b64encodeList rest

/-- Python `base64.b64encode(bytes).decode("utf-8")`. -/
def b64encode (bytes : List Nat) : String := ⟨b64encodeList bytes⟩

/-- Source `manifest.sha256_hash`: base64 of the SHA-256 of the UTF-8
encoding of the input string. -/
def sha256_hash (input : String) : String :=
  b64encode (sha256Bytes (utf8Encode input))

/-! ### `manifest.py`: names and paths -/

/-- Source `manifest.compose_manifest_name`: the logical name of a file for
`MANIFEST.json`, the vertical-bar join of the subdirectory segments followed
by the file name.  The Python `subdirectories` parameter defaults to `None`,
kept here as an `Option`. -/
def compose_manifest_name (file_name : String) (subdirectories : Option (List String)) : String :=
  let dirs := match subdirectories with
    | none => [file_name]
    | some subdirs => subdirs ++ [file_name]
  pyJoin "|" dirs

/-- Modelled from the spec: `compose_filename` lives in `arlo_e2e/utils.py`,
which is not among the sources under verification.  Per the specification it
joins the root directory, the subdirectories and the file name with the host
path separator; that the root directory is the first path segment is also
what `path_to_manifest_name` in `manifest.py` asserts of the paths it is
given.  Paths are kept as their segment lists. -/
def compose_filename (root_dir file_name : String) (subdirectories : List String) : List String :=
  root_dir :: subdirectories ++ [file_name]

/-- Source `manifest.manifest_name_to_filename`: splits the logical name on
vertical bars and rebuilds a local path with `compose_filename` — passing the
whole manifest name as the root-directory argument. -/
def manifest_name_to_filename (manifest_name : String) : List String :=
  let subdirs := pySplitOn manifest_name "|"
  compose_filename manifest_name (subdirs.getLastD "") subdirs.dropLast

/-- Source `manifest.path_to_manifest_name`: the logical name of a path.
The Python code asserts that the first path segment equals `root_dir`, which
holds at every call site modelled here (the paths are built by
`compose_filename root_dir ..`). -/
def path_to_manifest_name (root_dir : String) (path : List String) : String :=
  let _ := root_dir
  compose_manifest_name (path.getLastD "") (some (path.drop 1).dropLast)

/-! ### `manifest.py`: the manifest -/

/-- Source `manifest.FileInfo`: SHA-256 hash (base64 string) and length in
bytes of a written file. -/
structure FileInfo where
  hash : String
  num_bytes : Nat
deriving DecidableEq, Repr

/-- Source `manifest.ManifestExternal`: the on-disk representation of a
manifest (no root directory). -/
structure ManifestExternal where
  hashes : List (String × FileInfo)
  bytes_written : Nat
deriving DecidableEq, Repr

/-- Source `manifest.Manifest`: root directory, logical-name-to-FileInfo
dict, and total bytes written. -/
structure Manifest where
  root_dir : String
  hashes : List (String × FileInfo)
  bytes_written : Nat
deriving DecidableEq, Repr

/-- Source `ManifestExternal.to_manifest`. -/
def ManifestExternal.to_manifest (m : ManifestExternal) (root_dir : String) : Manifest :=
  ⟨root_dir, m.hashes, m.bytes_written⟩

/-- Source `Manifest.to_manifest_external`. -/
def Manifest.to_manifest_external (m : Manifest) : ManifestExternal :=
  ⟨m.hashes, m.bytes_written⟩

/-- Source `manifest.make_fresh_manifest` (without `delete_existing`): an
empty manifest over the given root directory. -/
def make_fresh_manifest (root_dir : String) : Manifest :=
  ⟨root_dir, [], 0⟩

/-- Result of `Manifest.write_file`: the returned hash, whether the
overwrite warning was logged, and the updated manifest and file system. -/
structure WriteResult where
  hash : String
  warned : Bool
  manifest : Manifest
  fs : FS

/-- Source `Manifest.write_file`: writes the contents to
`root_dir/subdirectories/file_name`, and records the logical name with the
SHA-256 hash and UTF-8 byte length of the contents.  A prior entry under the
same logical name only triggers a warning; the entry is overwritten either
way and `bytes_written` grows by the new length.  (`mkdir_list_helper` has
no observable effect on the file-system model.) -/
def Manifest.write_file (m : Manifest) (fs : FS) (file_name file_contents : String)
    (subdirectories : List String) : WriteResult :=
  let manifest_name := compose_manifest_name file_name (some subdirectories)
  let h := sha256_hash file_contents
  let file_content_bytes := utf8Len file_contents
  let full_name := compose_filename m.root_dir file_name subdirectories
  let fs2 := dinsert full_name file_contents fs
  let file_info : FileInfo := ⟨h, file_content_bytes⟩
  let warned := (dlookup manifest_name m.hashes).isSome
  { hash := file_info.hash
    warned := warned
    manifest := { m with
      bytes_written := m.bytes_written + file_info.num_bytes
      hashes := dinsert manifest_name file_info m.hashes }
    fs := fs2 }

/-- Source `Manifest.write_json_file`: serializes the object (externally,
via ElectionGuard `Serializable.to_json`; here the call sites pass the
serialized text) and hands it to `write_file`. -/
def Manifest.write_json_file (m : Manifest) (fs : FS) (file_name json_txt : String)
    (subdirectories : List String) : WriteResult :=
  m.write_file fs file_name json_txt subdirectories

/-- Source `Manifest.merge_from`: requires the same root directory (Python
`assert`), raises when a logical name shared by both manifests carries
disagreeing entries, and otherwise folds every entry of `other` into `self`
and sums `bytes_written`.  The conflict check runs entirely before the
mutation loop, so the error is a pure function of the two initial manifests.
Python iterates the shared and incoming keys as sets, whose order is
unspecified; the model iterates in insertion order, which changes neither
the error condition nor the resulting mapping. -/
def Manifest.merge_from (self other : Manifest) : Except String Manifest :=
  if self.root_dir ≠ other.root_dir then
    Except.error "manifests must share the same root directory"
  else
    match self.hashes.find? (fun kv =>
        match dlookup kv.1 other.hashes with
        | some v => decide (kv.2 ≠ v)
        | none => false) with
    | some kv => Except.error ("cannot merge manifests: disagreeing contents for " ++ kv.1)
    | none =>
      Except.ok { self with
        hashes := other.hashes.foldl (fun acc kv => dinsert kv.1 kv.2 acc) self.hashes
        bytes_written := self.bytes_written + other.bytes_written }

/-- Source `Manifest.validate_contents`: true when the logical name is
recorded and the contents match the recorded byte length and SHA-256 hash. -/
def Manifest.validate_contents (m : Manifest) (manifest_file_name file_contents : String) : Bool :=
  match dlookup manifest_file_name m.hashes with
  | none => false
  | some file_info =>
    if utf8Len file_contents ≠ file_info.num_bytes then false
    else if sha256_hash file_contents ≠ file_info.hash then false
    else true

/-- Modelled from the spec: `load_file_helper` lives in `arlo_e2e/utils.py`,
which is not among the sources under verification.  It reads the file at the
given path and returns its contents, or `None` when the file is unreadable;
it performs no integrity checks. -/
def load_file_helper (fs : FS) (full_name : List String) : Option String :=
  dlookup full_name fs

/-- Source `Manifest.read_file` (string file name): composes the full path
and the logical name, loads the contents, and returns them only when
`validate_contents` accepts them. -/
def Manifest.read_file (m : Manifest) (fs : FS) (file_name : String)
    (subdirectories : List String) : Option String :=
  let full_name := compose_filename m.root_dir file_name subdirectories
  let manifest_name := path_to_manifest_name m.root_dir full_name
  match load_file_helper fs full_name with
  | some file_contents =>
    if m.validate_contents manifest_name file_contents then some file_contents else none
  | none => none

/-- Source `Manifest.read_json_file`: `read_file` (which verifies the
hashes) followed by the external JSON deserialization, here passed in as a
function. -/
def Manifest.read_json_file {α : Type} (m : Manifest) (fs : FS) (file_name : String)
    (decode : String → Option α) (subdirectories : List String) : Option α :=
  (m.read_file fs file_name subdirectories).bind decode

/-! ### Serialization of `ManifestExternal`

The JSON codec for `ManifestExternal` belongs to the external ElectionGuard
`Serializable`/`jsons` machinery (an interface-only collaborator).  Modelled
from the spec: `MANIFEST.json` maps every logical name to its hash and byte
length, and the map is serialized in a canonical order (specification
section 5, ordering guarantees), here sorted by logical name. -/

/-- Lexicographic comparison of character lists by code point. -/
def listCharLe : List Char → List Char → Bool
  | [], _ => true
  | _ :: _, [] => false
  | a :: as, b :: bs =>
    if a.toNat < b.toNat then true
    else if b.toNat < a.toNat then false
    else listCharLe as bs

/-- Lexicographic order on strings, as a Bool. -/
def strLe (a b : String) : Bool := listCharLe a.data b.data

/-- Lexicographic order on strings, as a relation. -/
def strLeP (a b : String) : Prop := strLe a b = true

instance : DecidableRel strLeP := fun a b => instDecidableEqBool (strLe a b) true

/-- Canonical entry order: entries listed by sorted key, each key paired
with its `dlookup` value. -/
def canonicalEntries (hashes : List (String × FileInfo)) : List (String × FileInfo) :=
  ((hashes.map Prod.fst).insertionSort strLeP).map fun k =>
    (k, (dlookup k hashes).getD ⟨"", 0⟩)

/-- Modelled from the spec: canonical serialization of a `ManifestExternal`
(external ElectionGuard `Serializable.to_json`). -/
def serializeManifestExternal (me : ManifestExternal) : String :=
  pyJoin "\n" (("bytes_written=" ++ natRepr me.bytes_written) ::
    (canonicalEntries me.hashes).map fun kv =>
      kv.1 ++ "\t" ++ kv.2.hash ++ "\t" ++ natRepr kv.2.num_bytes)

/-- Parse one serialized manifest entry line. -/
def decodeManifestEntry (line : String) : Option (String × FileInfo) :=
  match pySplitOn line "\t" with
  | [name, h, b] => (parseNat b).map fun n => (name, ⟨h, n⟩)
  | _ => none

/-- Fold entries whose parse may fail into an association list. -/
def decodeManifestEntries : List String → Option (List (String × FileInfo))
  | [] => some []
  | line :: rest =>
    (decodeManifestEntry line).bind fun kv =>
      (decodeManifestEntries rest).map fun tail => kv :: tail

/-- Modelled from the spec: deserialization of a `ManifestExternal`
(external ElectionGuard JSON machinery), inverse of
`serializeManifestExternal` on its image. -/
def decodeManifestExternal (s : String) : Option ManifestExternal :=
  match pySplitOn s "\n" with
  | first :: rest =>
    if pyStartsWith first "bytes_written=" then
      (parseNat (strDrop first (strLen "bytes_written="))).bind fun bw =>
        (decodeManifestEntries rest).map fun entries => ⟨entries, bw⟩
    else none
  | [] => none

/-- Source `Manifest.write_manifest`: seals the manifest by writing
`MANIFEST.json` with the serialized `ManifestExternal` into the root
directory (as a side effect the manifest also records a hash for
`MANIFEST.json` itself). -/
def Manifest.write_manifest (m : Manifest) (fs : FS) : WriteResult :=
  m.write_json_file fs "MANIFEST.json" (serializeManifestExternal m.to_manifest_external) []

/-- Modelled from the spec: `load_json_helper` lives in `arlo_e2e/utils.py`,
which is not among the sources under verification.  It reads the file at the
given path and JSON-decodes it; it performs no manifest hash
verification. -/
def load_json_helper {α : Type} (fs : FS) (full_name : List String)
    (decode : String → Option α) : Option α :=
  (dlookup full_name fs).bind decode

/-- Source `manifest.make_existing_manifest`: loads `MANIFEST.json` from the
root directory (via `load_json_helper`, without hash verification of the
manifest file itself) and rebuilds the in-memory manifest. -/
def make_existing_manifest (fs : FS) (root_dir : String) : Option Manifest :=
  (load_json_helper fs [root_dir, "MANIFEST.json"] decodeManifestExternal).map
    fun me => me.to_manifest root_dir

/-! ### External ElectionGuard artifact types

JSON (de)serialization of the ElectionGuard objects is an external,
interface-only collaborator.  Each artifact type below is modelled from the
spec as its serialized JSON text (decoding accepts text with the outer shape
of a JSON object); the manifest and publishing layers under verification
depend only on the serialized bytes, the hashes thereof, and on whether
deserialization succeeds. -/

/-- Text with the outer shape of a JSON object. -/
def jsonObjectShaped (s : String) : Bool :=
  pyStartsWith s "\x7b" && pyEndsWith s "\x7d"

/-- Modelled from the spec: ElectionGuard `CiphertextAcceptedBallot`,
interface-only; an opaque object identifier plus the rest of the ballot
(ciphertexts, proofs, tracking hash), kept as an opaque payload. -/
structure CiphertextAcceptedBallot where
  object_id : String
  payload : String
deriving DecidableEq, Repr

/-- Modelled from the spec: external JSON serialization of a ciphertext
ballot. -/
def serializeBallot (b : CiphertextAcceptedBallot) : String :=
  "\x7b\"object_id\":\"" ++ b.object_id ++ "\",\"payload\":\"" ++ b.payload ++ "\"\x7d"

/-- Modelled from the spec: external JSON deserialization of a ciphertext
ballot; inverse of `serializeBallot` for quote-free fields. -/
def decodeBallot (s : String) : Option CiphertextAcceptedBallot :=
  let pre := "\x7b\"object_id\":\""
  let mid := "\",\"payload\":\""
  let suf := "\"\x7d"
  if pyStartsWith s pre && pyEndsWith s suf then
    match pySplitOn (strTake (strDrop s (strLen pre)) (strLen s - strLen pre - strLen suf)) mid with
    | [oid, payload] => some ⟨oid, payload⟩
    | _ => none
  else none

/-- Source `Manifest.write_ciphertext_ballot`: writes the ballot under
`ballots/<first four characters of its object id>/<object id>.json`. -/
def Manifest.write_ciphertext_ballot (m : Manifest) (fs : FS)
    (ballot : CiphertextAcceptedBallot) : Manifest × FS :=
  let ballot_name := ballot.object_id
  let ballot_name_start := strTake ballot_name 4
  let r := m.write_json_file fs (ballot_name ++ ".json") (serializeBallot ballot)
    ["ballots", ballot_name_start]
  (r.manifest, r.fs)

/-- Source `Manifest.load_ciphertext_ballot`: reads (and hash-verifies) the
ballot from `ballots/<first four characters of the id>/<id>.json`. -/
def Manifest.load_ciphertext_ballot (m : Manifest) (fs : FS)
    (ballot_id : String) : Option CiphertextAcceptedBallot :=
  let ballot_name_start := strTake ballot_id 4
  m.read_json_file fs (ballot_id ++ ".json") decodeBallot ["ballots", ballot_name_start]

/-- Modelled from the spec: ElectionGuard `ElectionDescription`,
interface-only, kept as its serialized JSON text. -/
structure ElectionDescription where
  json : String
deriving DecidableEq, Repr

/-- Modelled from the spec: external deserialization of an election
description. -/
def decodeElectionDescription (s : String) : Option ElectionDescription :=
  if jsonObjectShaped s then some ⟨s⟩ else none

/-- Modelled from the spec: ElectionGuard `CiphertextElectionContext`,
interface-only, kept as its serialized JSON text. -/
structure CiphertextElectionContext where
  json : String
deriving DecidableEq, Repr

/-- Modelled from the spec: external deserialization of a crypto context. -/
def decodeContext (s : String) : Option CiphertextElectionContext :=
  if jsonObjectShaped s then some ⟨s⟩ else none

/-- Modelled from the spec: `SelectionTally` from `arlo_e2e/tally.py` (not
among the sources under verification), kept as its serialized JSON text. -/
structure SelectionTally where
  json : String
deriving DecidableEq, Repr

/-- Modelled from the spec: external deserialization of a tally. -/
def decodeTally (s : String) : Option SelectionTally :=
  if jsonObjectShaped s then some ⟨s⟩ else none

/-- Modelled from the spec: `ElectionMetadata` from `arlo_e2e/metadata.py`
(not among the sources under verification), kept as its serialized JSON
text. -/
structure ElectionMetadata where
  json : String
deriving DecidableEq, Repr

/-- Modelled from the spec: external deserialization of election
metadata. -/
def decodeMetadata (s : String) : Option ElectionMetadata :=
  if jsonObjectShaped s then some ⟨s⟩ else none

/-- Modelled from the spec: ElectionGuard `ElectionConstants`, the group
parameters (large prime modulus, small prime order, cofactor, generator). -/
structure ElectionConstants where
  large_prime : Nat
  small_prime : Nat
  cofactor : Nat
  generator : Nat
deriving DecidableEq, Repr

/-- Modelled from the spec: the compiled-in group parameters, published
under `constants.json`.  Stand-in values; only equality with the loaded
record matters to the code under verification. -/
def defaultElectionConstants : ElectionConstants :=
  ⟨167, 83, 2, 3⟩

/-- Modelled from the spec: external JSON serialization of the group
parameters. -/
def serializeConstants (c : ElectionConstants) : String :=
  pyJoin "," ([c.large_prime, c.small_prime, c.cofactor, c.generator].map natRepr)

/-- Modelled from the spec: external deserialization of the group
parameters. -/
def decodeConstants (s : String) : Option ElectionConstants :=
  match (pySplitOn s ",").map parseNat with
  | [some p, some q, some r, some g] => some ⟨p, q, r, g⟩
  | _ => none

/-! ### `publish.py` -/

/-- Source `publish.ELECTION_METADATA` and friends. -/
def ELECTION_METADATA : String := "election_metadata.json"

/-- Source `publish.ELECTION_DESCRIPTION`. -/
def ELECTION_DESCRIPTION : String := "election_description.json"

/-- Source `publish.ENCRYPTED_TALLY`. -/
def ENCRYPTED_TALLY : String := "encrypted_tally.json"

/-- Source `publish.CRYPTO_CONSTANTS`. -/
def CRYPTO_CONSTANTS : String := "constants.json"

/-- Source `publish.CRYPTO_CONTEXT`. -/
def CRYPTO_CONTEXT : String := "cryptographic_context.json"

/-- Modelled from the spec: `FastTallyEverythingResults` from
`arlo_e2e/tally.py` (not among the sources under verification): the
artifacts of a finished tally, in the field order of the source
constructor. -/
structure FastTallyEverythingResults where
  metadata : ElectionMetadata
  election_description : ElectionDescription
  encrypted_ballots : List CiphertextAcceptedBallot
  tally : SelectionTally
  context : CiphertextElectionContext
deriving DecidableEq, Repr

/-- The ballot loop of `write_fast_tally`: writes every ballot in turn
through the manifest. -/
def writeBallotsFold (bs : List CiphertextAcceptedBallot) (acc : Manifest × FS) :
    Manifest × FS :=
  bs.foldl (fun acc ballot => (acc.1).write_ciphertext_ballot acc.2 ballot) acc

/-- Source `publish.write_fast_tally`: writes the five top-level artifacts,
every ballot (sharded under `ballots/`), and finally `MANIFEST.json`, all
through a fresh manifest over `results_dir`.  Returns the resulting file
system and manifest. -/
def write_fast_tally (results : FastTallyEverythingResults) (results_dir : String)
    (fs : FS) : FS × Manifest :=
  let manifest := make_fresh_manifest results_dir
  let r1 := manifest.write_json_file fs ELECTION_DESCRIPTION results.election_description.json []
  let r2 := r1.manifest.write_json_file r1.fs CRYPTO_CONTEXT results.context.json []
  let r3 := r2.manifest.write_json_file r2.fs CRYPTO_CONSTANTS
    (serializeConstants defaultElectionConstants) []
  let r4 := r3.manifest.write_json_file r3.fs ENCRYPTED_TALLY results.tally.json []
  let r5 := r4.manifest.write_json_file r4.fs ELECTION_METADATA results.metadata.json []
  let acc6 := writeBallotsFold results.encrypted_ballots (r5.manifest, r5.fs)
  let r7 := (acc6.1).write_manifest acc6.2
  (r7.fs, r7.manifest)

/-- Modelled from the spec: `all_files_in_directory` from
`arlo_e2e/utils.py` (not among the sources under verification): the paths of
all files under the given directory. -/
def all_files_in_directory (fs : FS) (dir : List String) : List (List String) :=
  (fs.map Prod.fst).filter fun p => p.take dir.length = dir

/-- Whether anything exists under the given root directory (Python
`os.path.exists` on the results directory; in the file-system model a
directory exists when some file lies under it). -/
def dirExists (fs : FS) (root_dir : String) : Bool :=
  fs.any fun kv => kv.1.headD "" = root_dir

/-- Source `publish.load_fast_tally`: loads the sealed directory back.  The
five top-level artifacts are read through `Manifest.read_json_file`, which
recomputes and compares hashes; `constants.json` must additionally equal the
compiled-in constants.  The ballot files are listed from the file system and
loaded through `load_json_helper` — not through the manifest.  The external
cryptographic verification `FastTallyEverythingResults.all_proofs_valid`
(from `arlo_e2e/tally.py`, not among the sources under verification) is
passed in as the function `all_proofs_valid`. -/
def load_fast_tally (fs : FS) (results_dir : String) (check_proofs : Bool)
    (all_proofs_valid : FastTallyEverythingResults → Bool) :
    Option FastTallyEverythingResults :=
  if ¬ dirExists fs results_dir then none
  else
    match make_existing_manifest fs results_dir with
    | none => none
    | some manifest =>
      match manifest.read_json_file fs ELECTION_DESCRIPTION decodeElectionDescription [] with
      | none => none
      | some election_description =>
        match manifest.read_json_file fs CRYPTO_CONSTANTS decodeConstants [] with
        | none => none
        | some constants =>
          if constants ≠ defaultElectionConstants then none
          else
            match manifest.read_json_file fs CRYPTO_CONTEXT decodeContext [] with
            | none => none
            | some cec =>
              match manifest.read_json_file fs ENCRYPTED_TALLY decodeTally [] with
              | none => none
              | some encrypted_tally =>
                match manifest.read_json_file fs ELECTION_METADATA decodeMetadata [] with
                | none => none
                | some metadata =>
                  let ballot_files := all_files_in_directory fs [results_dir, "ballots"]
                  let encrypted_ballots := ballot_files.map fun s =>
                    load_json_helper fs s decodeBallot
                  if encrypted_ballots.any Option.isNone then none
                  else
                    let everything : FastTallyEverythingResults :=
                      ⟨metadata, election_description,
                        encrypted_ballots.filterMap id, encrypted_tally, cec⟩
                    if check_proofs then
                      if all_proofs_valid everything then some everything else none
                    else some everything

/-! ### `arlo_audit_report.py` -/

/-- A cell of a pandas data frame row: either the floating-point NaN that
pandas substitutes for an empty CSV cell, or a string. -/
inductive PyVal where
  | nan : PyVal
  | str (s : String) : PyVal
deriving DecidableEq, Repr

/-- Modelled from the spec: `fix_strings` from `arlo_e2e/dominion.py` (not
among the sources under verification): converts the pandas NaN of an empty
cell to `None` and passes strings through. -/
def fix_strings : PyVal → Option String
  | .nan => none
  | .str s => some s

/-- Source `arlo_audit_report._imprinted_id`. -/
def imprintedIdKey : String := "Imprinted ID"

/-- Source `arlo_audit_report._cvr_result`. -/
def cvrResultKey : String := "CVR Result: "

/-- Source `arlo_audit_report._audit_result`. -/
def auditResultKey : String := "Audit Result: "

/-- Source `arlo_audit_report._discrepancy`. -/
def discrepancyKey : String := "Discrepancy: "

/-- Source `arlo_audit_report._audit_fix_strings`: `fix_strings`, and then
the literal string `CONTEST_NOT_ON_BALLOT` also becomes `None`. -/
def audit_fix_strings (input : PyVal) : Option String :=
  let fixed := fix_strings input
  if fixed = some "CONTEST_NOT_ON_BALLOT" then none else fixed

/-- Source `arlo_audit_report._fix_contest_name`: strips the first matching
of the three column-name markers from the front, then removes a
`" Vote for…"` suffix (the Python `re.sub " Vote for.*$"` truncates at the
first occurrence for the newline-free names used in these columns). -/
def fix_contest_name (input : String) : String :=
  let stripped :=
    if pyStartsWith input cvrResultKey then strDrop input (strLen cvrResultKey)
    else if pyStartsWith input auditResultKey then strDrop input (strLen auditResultKey)
    else if pyStartsWith input discrepancyKey then strDrop input (strLen discrepancyKey)
    else input
  (pySplitOn stripped " Vote for").headD stripped

/-- Build a dict comprehension `{f k : g k for k in keys}` (later duplicate
keys overwrite earlier ones, as in Python). -/
def dictComp (keys : List String) (f : String → String) (g : String → Option String) :
    List (String × Option String) :=
  keys.foldl (fun acc k => dinsert (f k) (g k) acc) []

/-- Source `arlo_audit_report.ArloSampledBallot`. -/
structure ArloSampledBallot where
  imprintedId : Option String
  metadata : List (String × Option String)
  audit_result : List (String × Option String)
  cvr_result : List (String × Option String)
  discrepancy : List (String × Option String)
deriving DecidableEq, Repr

/-- Source `ArloSampledBallot.__init__`, over a row dict: the metadata keys
are those carrying none of the three markers; the `audit_result` dict is
built with `_audit_fix_strings`, while `cvr_result` and `discrepancy` are
built with plain `fix_strings`; all three strip the marker and the
`" Vote for…"` suffix from the contest name.  (Python indexes
`row["Imprinted ID"]`, present at every call site; a missing key reads as
the empty cell here.) -/
def ArloSampledBallot.ofRow (row : List (String × PyVal)) : ArloSampledBallot :=
  let keys := row.map Prod.fst
  let cell := fun k => (dlookup k row).getD PyVal.nan
  let metadata_keys := keys.filter fun k =>
    ¬ pyStartsWith k cvrResultKey ∧ ¬ pyStartsWith k discrepancyKey ∧
      ¬ pyStartsWith k auditResultKey
  { imprintedId := fix_strings (cell imprintedIdKey)
    metadata := dictComp metadata_keys fix_contest_name (fun k => fix_strings (cell k))
    audit_result := dictComp (keys.filter fun k => pyStartsWith k auditResultKey)
      fix_contest_name (fun k => audit_fix_strings (cell k))
    cvr_result := dictComp (keys.filter fun k => pyStartsWith k cvrResultKey)
      fix_contest_name (fun k => fix_strings (cell k))
    discrepancy := dictComp (keys.filter fun k => pyStartsWith k discrepancyKey)
      fix_contest_name (fun k => fix_strings (cell k)) }

/-- Convert one CSV field to a pandas cell: an empty field reads as NaN. -/
def toCell (s : String) : PyVal :=
  if s = "" then PyVal.nan else PyVal.str s

/-- Pad a row to the header width with NaN cells. -/
def padRow (width : Nat) (fields : List String) : List PyVal :=
  fields.map toCell ++ List.replicate (width - fields.length) PyVal.nan

/-- Parse the data rows against a header of the given width; a row with more
fields than the header is a parse error. -/
def readCsvRows (width : Nat) : List String → Option (List (List PyVal))
  | [] => some []
  | line :: rest =>
    let fields := pySplitOn line ","
    if width < fields.length then none
    else (readCsvRows width rest).map fun rows => padRow width fields :: rows

/-- Modelled from the spec: the external CSV reader (`pandas.read_csv` with
the python engine and minimal quoting), an interface-only collaborator.
Blank lines are skipped; the first remaining line is the comma-separated
header; every further line is a data row, padded with NaN when it has fewer
fields than the header and a `ParserError` when it has more.  Quoted fields
and numeric conversion are not exercised by the inputs considered here.
Returns the rows already as the record dicts of `DataFrame.to_dict`. -/
def read_csv (lines : List String) : Option (List String × List (List (String × PyVal))) :=
  match lines.filter (· ≠ "") with
  | [] => none
  | header :: dataLines =>
    let hdr := pySplitOn header ","
    (readCsvRows hdr.length dataLines).map fun rows =>
      (hdr, rows.map fun r => hdr.zip r)

/-- Source section separator line for the sampled-ballots section. -/
def sampledBallotsMarker : String := "######## SAMPLED BALLOTS ########"

/-- The CSV stage of `arlo_audit_report_to_results`: parse the data lines,
require an `Imprinted ID` column, and turn every data row into one
`ArloSampledBallot`. -/
def csv_ballots (dataLines : List String) : Option (List ArloSampledBallot) :=
  match read_csv dataLines with
  | none => none
  | some (hdr, rows) =>
    if imprintedIdKey ∈ hdr then some (rows.map ArloSampledBallot.ofRow)
    else none

/-- Source `arlo_audit_report.arlo_audit_report_to_results`, from the line
list of the input: find the first line starting with the sampled-ballots
marker; when it is the last line the result is the empty list, when it is
absent the result is `None`; otherwise every following line up to the end of
the input is handed to the CSV stage. -/
def audit_from_lines (lines : List String) : Option (List ArloSampledBallot) :=
  let header_line_no : Int :=
    match lines.findIdx? (fun l => pyStartsWith l sampledBallotsMarker) with
    | some i => (i : Int)
    | none => -1
  if header_line_no = (lines.length : Int) - 1 then some []
  else if header_line_no = -1 then none
  else csv_ballots (lines.drop (header_line_no.toNat + 1))

/-- Source `arlo_audit_report.arlo_audit_report_to_results` on the full
input text (Python `file.read().splitlines()`). -/
def arlo_audit_report_to_results (contents : String) : Option (List ArloSampledBallot) :=
  audit_from_lines (pySplitlines contents)

/-! ### Dict lemmas -/

theorem dlookup_dinsert_self {α β : Type} [DecidableEq α] (k : α) (v : β) (l : List (α × β)) :
    dlookup k (dinsert k v l) = some v := by
  induction l with
  | nil => simp [dinsert, dlookup]
  | cons hd tl ih =>
    by_cases h : hd.1 = k
    · simp [dinsert, dlookup, h]
    · simpa [dinsert, dlookup, h] using ih

theorem dlookup_dinsert_ne {α β : Type} [DecidableEq α] {k k2 : α} (v : β) (l : List (α × β))
    (h : k2 ≠ k) : dlookup k (dinsert k2 v l) = dlookup k l := by
  induction l with
  | nil => simp [dinsert, dlookup, h]
  | cons hd tl ih =>
    by_cases h2 : hd.1 = k2
    · simp [dinsert, dlookup, h2, h]
    · by_cases h3 : hd.1 = k <;> simp [dinsert, dlookup, h2, h3, ih, Ne.symm h]

theorem mem_keys_dinsert {α β : Type} [DecidableEq α] {a k : α} (v : β) (l : List (α × β)) :
    a ∈ (dinsert k v l).map Prod.fst ↔ a = k ∨ a ∈ l.map Prod.fst := by
  induction l with
  | nil => simp [dinsert, eq_comm]
  | cons hd tl ih =>
    by_cases h : hd.1 = k
    · subst h
      by_cases h2 : a = hd.1 <;> simp [dinsert, h2]
    · simp only [dinsert, if_neg h, List.map_cons, List.mem_cons, ih]
      tauto

theorem map_fst_dinsert_of_lookup_isSome {α β : Type} [DecidableEq α] {k : α} (v : β)
    {l : List (α × β)} (h : (dlookup k l).isSome) :
    (dinsert k v l).map Prod.fst = l.map Prod.fst := by
  induction l with
  | nil => simp [dlookup] at h
  | cons hd tl ih =>
    by_cases h2 : hd.1 = k
    · simp [dinsert, h2]
    · simp only [dlookup, h2, if_false] at h
      simp [dinsert, h2, ih h]

theorem dlookup_isSome_iff_mem_keys {α β : Type} [DecidableEq α] (k : α) (l : List (α × β)) :
    (dlookup k l).isSome ↔ k ∈ l.map Prod.fst := by
  induction l with
  | nil => simp [dlookup]
  | cons hd tl ih =>
    by_cases h : hd.1 = k
    · simp [dlookup, h]
    · have hks : ¬ k = hd.1 := fun he => h he.symm
      simp [dlookup, h, ih, hks]

theorem dlookup_eq_some_of_mem {α β : Type} [DecidableEq α] {k : α} {v : β}
    {l : List (α × β)} (hmem : (k, v) ∈ l) (hnd : (l.map Prod.fst).Nodup) :
    dlookup k l = some v := by
  induction l with
  | nil => simp at hmem
  | cons hd tl ih =>
    simp only [List.map_cons, List.nodup_cons] at hnd
    rcases List.mem_cons.mp hmem with h | h
    · subst h; simp [dlookup]
    · have hne : hd.1 ≠ k := by
        intro he
        exact hnd.1 (he ▸ (List.mem_map.mpr ⟨(k, v), h, rfl⟩))
      simp [dlookup, hne, ih h hnd.2]

theorem nodup_keys_dinsert {α β : Type} [DecidableEq α] (k : α) (v : β)
    {l : List (α × β)} (hnd : (l.map Prod.fst).Nodup) :
    ((dinsert k v l).map Prod.fst).Nodup := by
  induction l with
  | nil => simp [dinsert]
  | cons hd tl ih =>
    simp only [List.map_cons, List.nodup_cons] at hnd
    by_cases h : hd.1 = k
    · simpa [dinsert, h, List.nodup_cons] using hnd
    · simp only [dinsert, if_neg h, List.map_cons]
      refine List.nodup_cons.mpr ⟨?_, ih hnd.2⟩
      intro hmem
      rcases (mem_keys_dinsert v tl).mp hmem with h2 | h2
      · exact h h2
      · exact hnd.1 h2

theorem dlookup_foldl_dinsert {α β : Type} [DecidableEq α] (k : α)
    (ps : List (α × β)) (init : List (α × β)) (hnd : (ps.map Prod.fst).Nodup) :
    dlookup k (ps.foldl (fun acc kv => dinsert kv.1 kv.2 acc) init) =
      (dlookup k ps).or (dlookup k init) := by
  induction ps generalizing init with
  | nil => simp [dlookup]
  | cons hd tl ih =>
    simp only [List.map_cons, List.nodup_cons] at hnd
    rw [List.foldl_cons, ih _ hnd.2]
    by_cases h : hd.1 = k
    · subst h
      have hnone : dlookup hd.1 tl = none := by
        cases hlk : dlookup hd.1 tl with
        | none => rfl
        | some v =>
          exact absurd ((dlookup_isSome_iff_mem_keys hd.1 tl).mp (by simp [hlk])) hnd.1
      simp [dlookup, hnone, dlookup_dinsert_self]
    · simp [dlookup, h, dlookup_dinsert_ne _ _ h]

theorem nodup_keys_foldl_dinsert {α β : Type} [DecidableEq α]
    (ps : List (α × β)) (init : List (α × β)) (hnd : (init.map Prod.fst).Nodup) :
    (((ps.foldl (fun acc kv => dinsert kv.1 kv.2 acc) init)).map Prod.fst).Nodup := by
  induction ps generalizing init with
  | nil => simpa
  | cons hd tl ih => exact ih _ (nodup_keys_dinsert hd.1 hd.2 hnd)

/-! ### Order lemmas for the canonical serialization -/

theorem listCharLe_total : ∀ as bs : List Char, listCharLe as bs = true ∨ listCharLe bs as = true
  | [], _ => Or.inl rfl
  | _ :: _, [] => Or.inr rfl
  | a :: as, b :: bs => by
    by_cases h1 : a.toNat < b.toNat
    · left; simp [listCharLe, h1]
    · by_cases h2 : b.toNat < a.toNat
      · right; simp [listCharLe, h2]
      · rcases listCharLe_total as bs with h | h
        · left; simp [listCharLe, h1, h2, h]
        · right; simp [listCharLe, h1, h2, h]

theorem listCharLe_trans : ∀ as bs cs : List Char, listCharLe as bs = true →
    listCharLe bs cs = true → listCharLe as cs = true
  | [], _, _, _, _ => rfl
  | _ :: _, [], _, h, _ => by simp [listCharLe] at h
  | _ :: _, _ :: _, [], _, h => by simp [listCharLe] at h
  | a :: as, b :: bs, c :: cs, h1, h2 => by
    simp only [listCharLe] at h1 h2 ⊢
    by_cases hab : a.toNat < b.toNat
    · by_cases hbc : b.toNat < c.toNat
      · simp [show a.toNat < c.toNat by omega]
      · by_cases hcb : c.toNat < b.toNat
        · simp [hbc, hcb] at h2
        · simp [show a.toNat < c.toNat by omega]
    · by_cases hba : b.toNat < a.toNat
      · simp [hab, hba] at h1
      · by_cases hbc : b.toNat < c.toNat
        · simp [show a.toNat < c.toNat by omega]
        · by_cases hcb : c.toNat < b.toNat
          · simp [hbc, hcb] at h2
          · have hac : ¬ a.toNat < c.toNat := by omega
            have hca : ¬ c.toNat < a.toNat := by omega
            simp only [hab, hba, if_false] at h1
            simp only [hbc, hcb, if_false] at h2
            simp [hac, hca, listCharLe_trans as bs cs h1 h2]

theorem listCharLe_antisymm : ∀ as bs : List Char, listCharLe as bs = true →
    listCharLe bs as = true → as = bs
  | [], [], _, _ => rfl
  | [], _ :: _, _, h => by simp [listCharLe] at h
  | _ :: _, [], h, _ => by simp [listCharLe] at h
  | a :: as, b :: bs, h1, h2 => by
    simp only [listCharLe] at h1 h2
    by_cases hab : a.toNat < b.toNat <;> by_cases hba : b.toNat < a.toNat <;> simp_all
    · omega
    · have hn : a.toNat = b.toNat := by omega
      have hc : a = b := Char.eq_of_val_eq (UInt32.ext hn)
      exact ⟨hc, listCharLe_antisymm as bs h1 h2⟩

instance : IsTotal String strLeP :=
  ⟨fun a b => listCharLe_total a.data b.data⟩

instance : IsTrans String strLeP :=
  ⟨fun a b c => listCharLe_trans a.data b.data c.data⟩

instance : IsAntisymm String strLeP :=
  ⟨fun a b h1 h2 => by
    cases a; cases b
    exact congrArg String.mk (listCharLe_antisymm _ _ h1 h2)⟩

/-- Two hash dicts with distinct keys and the same lookup function have the
same canonical entry list. -/
theorem canonicalEntries_ext {h1 h2 : List (String × FileInfo)}
    (hnd1 : (h1.map Prod.fst).Nodup) (hnd2 : (h2.map Prod.fst).Nodup)
    (hext : ∀ k, dlookup k h1 = dlookup k h2) :
    canonicalEntries h1 = canonicalEntries h2 := by
  have hperm : List.Perm (h1.map Prod.fst) (h2.map Prod.fst) := by
    refine (List.perm_ext_iff_of_nodup hnd1 hnd2).mpr fun k => ?_
    rw [← dlookup_isSome_iff_mem_keys, ← dlookup_isSome_iff_mem_keys, hext k]
  have hsorteq : (h1.map Prod.fst).insertionSort strLeP =
      (h2.map Prod.fst).insertionSort strLeP := by
    refine List.eq_of_perm_of_sorted ?_ (List.sorted_insertionSort strLeP _)
      (List.sorted_insertionSort strLeP _)
    exact ((List.perm_insertionSort strLeP _).trans hperm).trans
      (List.perm_insertionSort strLeP _).symm
  unfold canonicalEntries
  rw [hsorteq]
  exact List.map_congr_left fun k _ => by rw [hext k]

/-! ### Further shared lemmas -/

theorem mem_of_dlookup_eq_some {α β : Type} [DecidableEq α] {k : α} {v : β}
    {l : List (α × β)} (h : dlookup k l = some v) : (k, v) ∈ l := by
  induction l with
  | nil => simp [dlookup] at h
  | cons hd tl ih =>
    obtain ⟨a, b⟩ := hd
    by_cases h2 : a = k
    · rw [dlookup, if_pos h2] at h
      injection h with hbv
      subst h2; subst hbv
      exact List.mem_cons_self _ _
    · rw [dlookup, if_neg h2] at h
      exact List.mem_cons_of_mem _ (ih h)

theorem string_append_cancel_right {s1 s2 t : String} (h : s1 ++ t = s2 ++ t) :
    s1 = s2 := by
  cases s1 with | mk d1 =>
  cases s2 with | mk d2 =>
  cases t with | mk d3 =>
  have h2 : d1 ++ d3 = d2 ++ d3 := by
    have h3 := congrArg String.data h
    simpa [String.data] using h3
  exact congrArg String.mk (List.append_cancel_right h2)

/-- The logical name of a composed path is the composed manifest name. -/
theorem path_to_manifest_name_compose (root file_name : String) (subdirs : List String) :
    path_to_manifest_name root (compose_filename root file_name subdirs) =
      compose_manifest_name file_name (some subdirs) := by
  unfold path_to_manifest_name compose_filename compose_manifest_name
  have hdrop : List.drop 1 ((root :: subdirs) ++ [file_name]) = subdirs ++ [file_name] := by
    rw [List.cons_append]
    rfl
  have hlast : ((root :: subdirs) ++ [file_name]).getLastD "" = file_name := by
    rw [List.getLastD_eq_getLast?, List.getLast?_concat]
    rfl
  dsimp only
  rw [hdrop, hlast, List.dropLast_concat]

/-- `dictComp` is folding `dinsert` over the mapped pair list. -/
theorem dictComp_eq_foldl (keys : List String) (f : String → String)
    (g : String → Option String) :
    dictComp keys f g =
      (keys.map fun k => (f k, g k)).foldl (fun acc kv => dinsert kv.1 kv.2 acc) [] := by
  unfold dictComp
  rw [List.foldl_map]

theorem dlookup_map_pairs {k : String} {keys : List String}
    (f : String → String) (g : String → Option String)
    (hmem : k ∈ keys) (hnd : (keys.map f).Nodup) :
    dlookup (f k) (keys.map fun k2 => (f k2, g k2)) = some (g k) := by
  induction keys with
  | nil => simp at hmem
  | cons hd tl ih =>
    simp only [List.map_cons, List.nodup_cons] at hnd
    by_cases h : f hd = f k
    · rcases List.mem_cons.mp hmem with he | he
      · subst he
        simp [dlookup]
      · exact absurd (h ▸ List.mem_map.mpr ⟨k, he, rfl⟩) hnd.1
    · have hne : k ∈ tl := by
        rcases List.mem_cons.mp hmem with he | he
        · exact absurd (congrArg f he.symm) h
        · exact he
      simp only [List.map_cons, dlookup, h, if_false]
      exact ih hne hnd.2

/-- Lookup in a Python dict comprehension over distinct transformed keys. -/
theorem dlookup_dictComp {k : String} {keys : List String}
    (f : String → String) (g : String → Option String)
    (hmem : k ∈ keys) (hnd : (keys.map f).Nodup) :
    dlookup (f k) (dictComp keys f g) = some (g k) := by
  rw [dictComp_eq_foldl,
    dlookup_foldl_dinsert _ _ _ (by simpa [Function.comp] using hnd),
    dlookup_map_pairs f g hmem hnd]
  rfl

theorem findIdx?_go_prepend {p : String → Bool} {pre : List String} {mid : String}
    (post : List String) (hpre : ∀ l ∈ pre, p l = false) (hmid : p mid = true) :
    ∀ i, List.findIdx? p (pre ++ mid :: post) i = some (i + pre.length) := by
  induction pre with
  | nil => intro i; simp [List.findIdx?_cons, hmid]
  | cons hd tl ih =>
    intro i
    have hhd : p hd = false := hpre hd (List.mem_cons_self hd tl)
    rw [List.cons_append, List.findIdx?_cons, hhd]
    simp only [Bool.false_eq_true, if_false]
    rw [ih (fun l hl => hpre l (List.mem_cons_of_mem hd hl)) (i + 1)]
    congr 1
    simp
    omega

/-- The conflict predicate inside `Manifest.merge_from`. -/
def mergeConflict (other : Manifest) (kv : String × FileInfo) : Bool :=
  match dlookup kv.1 other.hashes with
  | some v => decide (kv.2 ≠ v)
  | none => false

theorem merge_from_eq (a b : Manifest) (hroot : a.root_dir = b.root_dir) :
    a.merge_from b =
      match a.hashes.find? (mergeConflict b) with
      | some kv => Except.error ("cannot merge manifests: disagreeing contents for " ++ kv.1)
      | none =>
        Except.ok { a with
          hashes := b.hashes.foldl (fun acc kv => dinsert kv.1 kv.2 acc) a.hashes
          bytes_written := a.bytes_written + b.bytes_written } := by
  unfold Manifest.merge_from
  rw [if_neg (by simp [hroot])]
  rfl

/-- `merge_from` raises exactly when a logical name recorded in both
manifests carries disagreeing entries. -/
theorem merge_from_error_iff (a b : Manifest) (hroot : a.root_dir = b.root_dir)
    (hnda : (a.hashes.map Prod.fst).Nodup) :
    (∃ e, a.merge_from b = Except.error e) ↔
      ∃ k va vb, dlookup k a.hashes = some va ∧ dlookup k b.hashes = some vb ∧ va ≠ vb := by
  rw [merge_from_eq a b hroot]
  cases hfind : a.hashes.find? (mergeConflict b) with
  | some kv =>
    simp only [true_iff, exists_eq']
    have hpred := List.find?_some hfind
    have hmem := List.mem_of_find?_eq_some hfind
    unfold mergeConflict at hpred
    cases hvb : dlookup kv.1 b.hashes with
    | none => rw [hvb] at hpred; simp at hpred
    | some vb =>
      rw [hvb] at hpred
      have hne : kv.2 ≠ vb := of_decide_eq_true hpred
      have hva : dlookup kv.1 a.hashes = some kv.2 :=
        dlookup_eq_some_of_mem (by rw [Prod.mk.eta]; exact hmem) hnda
      constructor
      · intro _
        exact ⟨kv.1, kv.2, vb, hva, hvb, hne⟩
      · intro _
        exact ⟨_, rfl⟩
  | none =>
    simp only [false_iff]
    constructor
    · rintro ⟨e, he⟩
      simp at he
    · rintro ⟨k, va, vb, hva, hvb, hne⟩
      have hall := List.find?_eq_none.mp hfind (k, va) (mem_of_dlookup_eq_some hva)
      unfold mergeConflict at hall
      rw [hvb] at hall
      simp at hall
      exact (hne hall).elim

/-- Characterization of a successful `merge_from`: the root is kept, the
byte counts add, the resulting mapping is the union (with `other` winning on
shared names), and key distinctness is preserved. -/
theorem merge_from_ok_spec (a b : Manifest) (hroot : a.root_dir = b.root_dir)
    (hnda : (a.hashes.map Prod.fst).Nodup) (hndb : (b.hashes.map Prod.fst).Nodup) :
    ∀ m2, a.merge_from b = Except.ok m2 →
      m2.root_dir = a.root_dir ∧
      m2.bytes_written = a.bytes_written + b.bytes_written ∧
      (∀ k, dlookup k m2.hashes = (dlookup k b.hashes).or (dlookup k a.hashes)) ∧
      (m2.hashes.map Prod.fst).Nodup := by
  intro m2 hok
  rw [merge_from_eq a b hroot] at hok
  cases hfind : a.hashes.find? (mergeConflict b) with
  | some kv => rw [hfind] at hok; simp at hok
  | none =>
    rw [hfind] at hok
    injection hok with hok
    subst hok
    refine ⟨rfl, rfl, fun k => dlookup_foldl_dinsert k _ _ hndb, ?_⟩
    exact nodup_keys_foldl_dinsert _ _ hnda

/-! ### Claims -/

/-- C10: `compose_manifest_name` joins the subdirectories and the file name
with vertical bars as claimed, but `manifest_name_to_filename` does not
round-trip: on the manifest name `a|b|f.json` the code passes the whole
manifest name as the root argument of `compose_filename` and produces the
path segments `[a|b|f.json, a, b, f.json]` — an extra leading segment in
front of the expected `[a, b, f.json]`. -/
theorem claim_C10_roundtrip_bug :
    compose_manifest_name "f.json" (some ["a", "b"]) = "a|b|f.json" ∧
    manifest_name_to_filename "a|b|f.json" = ["a|b|f.json", "a", "b", "f.json"] ∧
    manifest_name_to_filename "a|b|f.json" ≠ ["a", "b", "f.json"] := by
  refine ⟨by decide, by decide, by decide⟩

/-- C2 (amended): `write_file` writes the given contents to disk and records
(base64 SHA-256, UTF-8 byte length) under the logical name, leaving every
other entry alone and adding the new length to `bytes_written`; when a prior
entry exists under the same logical name — with identical or with different
content — the call does not fail: it logs a warning and overwrites the
entry. -/
theorem claim_C2_write_file (m : Manifest) (fs : FS) (file_name file_contents : String)
    (subdirectories : List String) :
    (m.write_file fs file_name file_contents subdirectories).hash =
        sha256_hash file_contents ∧
    dlookup (compose_manifest_name file_name (some subdirectories))
        (m.write_file fs file_name file_contents subdirectories).manifest.hashes =
      some ⟨sha256_hash file_contents, utf8Len file_contents⟩ ∧
    (∀ k, k ≠ compose_manifest_name file_name (some subdirectories) →
      dlookup k (m.write_file fs file_name file_contents subdirectories).manifest.hashes =
        dlookup k m.hashes) ∧
    (m.write_file fs file_name file_contents subdirectories).manifest.bytes_written =
        m.bytes_written + utf8Len file_contents ∧
    dlookup (compose_filename m.root_dir file_name subdirectories)
        (m.write_file fs file_name file_contents subdirectories).fs = some file_contents ∧
    ((m.write_file fs file_name file_contents subdirectories).warned = true ↔
      (dlookup (compose_manifest_name file_name (some subdirectories)) m.hashes).isSome = true) := by
  unfold Manifest.write_file
  dsimp only
  refine ⟨rfl, dlookup_dinsert_self _ _ _, fun k hk => dlookup_dinsert_ne _ _ (Ne.symm hk),
    rfl, dlookup_dinsert_self _ _ _, Iff.rfl⟩

/-- A manifest with a recorded entry whose content info differs from what a
fresh write of `"hello"` under the same logical name produces. -/
def c2_prior : Manifest := ⟨"r", [("f.json", ⟨"NOT-THE-REAL-HASH", 99⟩)], 99⟩

/-- C2 counterexample: the claim says a `write_file` under a logical name
that already carries an entry with different content fails; in the code the
call succeeds — it returns the new hash, merely warns, and overwrites the
old entry. -/
theorem claim_C2_counterexample :
    dlookup "f.json" c2_prior.hashes = some ⟨"NOT-THE-REAL-HASH", 99⟩ ∧
    (⟨"NOT-THE-REAL-HASH", 99⟩ : FileInfo) ≠ ⟨sha256_hash "hello", 5⟩ ∧
    (c2_prior.write_file [] "f.json" "hello" []).hash = sha256_hash "hello" ∧
    (c2_prior.write_file [] "f.json" "hello" []).warned = true ∧
    dlookup "f.json" (c2_prior.write_file [] "f.json" "hello" []).manifest.hashes =
      some ⟨sha256_hash "hello", 5⟩ := by
  refine ⟨by decide, by decide, by decide, by decide, by decide⟩

/-- C2 witness: the amended theorem applied at a concrete write. -/
theorem claim_C2_witness :
    ((make_fresh_manifest "r").write_file [] "f.json" "hi" ["sub"]).hash = sha256_hash "hi" ∧
    ("other" ≠ compose_manifest_name "f.json" (some ["sub"]) ∧
      dlookup "other"
          ((make_fresh_manifest "r").write_file [] "f.json" "hi" ["sub"]).manifest.hashes =
        dlookup "other" (make_fresh_manifest "r").hashes) :=
  ⟨(claim_C2_write_file _ _ _ _ _).1, by decide,
    (claim_C2_write_file _ _ _ _ _).2.2.1 "other" (by decide)⟩

/-- Characterization of a successful `read_file`. -/
theorem read_file_some_iff (m : Manifest) (fs : FS) (file_name : String)
    (subdirectories : List String) (c : String) :
    m.read_file fs file_name subdirectories = some c ↔
      dlookup (compose_filename m.root_dir file_name subdirectories) fs = some c ∧
      ∃ fi, dlookup (compose_manifest_name file_name (some subdirectories)) m.hashes = some fi ∧
        utf8Len c = fi.num_bytes ∧ sha256_hash c = fi.hash := by
  unfold Manifest.read_file load_file_helper
  dsimp only
  rw [path_to_manifest_name_compose]
  cases hfs : dlookup (compose_filename m.root_dir file_name subdirectories) fs with
  | none => simp
  | some c2 =>
    unfold Manifest.validate_contents
    cases hm : dlookup (compose_manifest_name file_name (some subdirectories)) m.hashes with
    | none => simp
    | some fi =>
      by_cases hlen : utf8Len c2 = fi.num_bytes
      · by_cases hh : sha256_hash c2 = fi.hash
        · simp only [hlen, hh, ne_eq, not_true_eq_false, if_false, if_true]
          constructor
          · rintro h
            injection h with h
            subst h
            exact ⟨rfl, fi, rfl, hlen, hh⟩
          · rintro ⟨h1, _⟩
            injection h1 with h1
            rw [h1]
        · simp only [hlen, hh, ne_eq, not_true_eq_false, not_false_eq_true, if_true, if_false]
          constructor
          · rintro h; exact absurd h (by simp)
          · rintro ⟨h1, fi2, hfi2, _, hh2⟩
            injection h1 with h1
            injection hfi2 with hfi2
            subst h1; subst hfi2
            exact absurd hh2 hh
      · simp only [hlen, ne_eq, not_false_eq_true, if_true]
        constructor
        · rintro h; exact absurd h (by simp)
        · rintro ⟨h1, fi2, hfi2, hlen2, _⟩
          injection h1 with h1
          injection hfi2 with hfi2
          subst h1; subst hfi2
          exact absurd hlen2 hlen

/-- C5: `read_file` returns the file's contents exactly when the file is
present with those contents, a manifest entry exists for the corresponding
logical name, and the contents' UTF-8 byte length and recomputed base64
SHA-256 hash both equal the recorded entry; in every other case (missing
entry, length mismatch, hash mismatch, unreadable file) it returns `none`. -/
theorem claim_C5_read_file (m : Manifest) (fs : FS) (file_name : String)
    (subdirectories : List String) (c : String) :
    m.read_file fs file_name subdirectories = some c ↔
      dlookup (compose_filename m.root_dir file_name subdirectories) fs = some c ∧
      ∃ fi, dlookup (compose_manifest_name file_name (some subdirectories)) m.hashes = some fi ∧
        utf8Len c = fi.num_bytes ∧ sha256_hash c = fi.hash :=
  read_file_some_iff m fs file_name subdirectories c

/-- C5 witness: the characterization applied to a concrete freshly written
file, read back successfully. -/
theorem claim_C5_witness :
    ((make_fresh_manifest "r").write_file [] "f.json" "data" []).manifest.read_file
        ((make_fresh_manifest "r").write_file [] "f.json" "data" []).fs "f.json" [] =
      some "data" :=
  (claim_C5_read_file _ _ _ _ _).mpr
    ⟨by decide, ⟨sha256_hash "data", utf8Len "data"⟩, by decide, by decide, by decide⟩

/-- C3: for manifests over the same root directory (with the dict invariant
of distinct logical names), `merge_from` fails exactly when some logical
name recorded in both manifests carries entries that do not agree; the
conflict check precedes every mutation, so the error is decided by the two
initial maps alone (the receiving manifest is untouched on failure); on
success the resulting map is the union of both maps and `bytes_written` is
the sum of both. -/
theorem claim_C3_merge_from (a b : Manifest) (hroot : a.root_dir = b.root_dir)
    (hnda : (a.hashes.map Prod.fst).Nodup) (hndb : (b.hashes.map Prod.fst).Nodup) :
    ((∃ e, a.merge_from b = Except.error e) ↔
      ∃ k va vb, dlookup k a.hashes = some va ∧ dlookup k b.hashes = some vb ∧ va ≠ vb) ∧
    (∀ m2, a.merge_from b = Except.ok m2 →
      m2.root_dir = a.root_dir ∧
      m2.bytes_written = a.bytes_written + b.bytes_written ∧
      (∀ k, dlookup k m2.hashes = (dlookup k b.hashes).or (dlookup k a.hashes))) :=
  ⟨merge_from_error_iff a b hroot hnda,
    fun m2 hok =>
      let spec := merge_from_ok_spec a b hroot hnda hndb m2 hok
      ⟨spec.1, spec.2.1, spec.2.2.1⟩⟩

/-- Two concrete partial manifests sharing the name `f.json` with
disagreeing entries. -/
def c3a : Manifest := ⟨"r", [("f.json", ⟨"h1", 1⟩), ("g.json", ⟨"h2", 2⟩)], 3⟩

/-- Second manifest for the C3 and C4 witnesses. -/
def c3b : Manifest := ⟨"r", [("f.json", ⟨"h3", 1⟩)], 1⟩

/-- C3 witness: the characterization applied at concrete manifests — the
shared name `f.json` disagrees, so the merge raises. -/
theorem claim_C3_witness : ∃ e, c3a.merge_from c3b = Except.error e :=
  (claim_C3_merge_from c3a c3b rfl (by decide) (by decide)).1.mpr
    ⟨"f.json", ⟨"h1", 1⟩, ⟨"h3", 1⟩, by decide, by decide, by decide⟩

/-- `write_manifest` writes the canonical serialization of the manifest into
`MANIFEST.json` under the root directory. -/
theorem write_manifest_writes (m : Manifest) (fs : FS) :
    dlookup [m.root_dir, "MANIFEST.json"] ((m.write_manifest fs).fs) =
      some (serializeManifestExternal m.to_manifest_external) := by
  unfold Manifest.write_manifest Manifest.write_json_file Manifest.write_file
  dsimp only
  exact dlookup_dinsert_self _ _ _

/-- C4: for non-conflicting partial manifests over the same root, merging in
either order and sealing yields byte-for-byte identical `MANIFEST.json`
contents: the two serialized manifests agree, and sealing each stores
exactly those bytes under `MANIFEST.json`. -/
theorem claim_C4_merge_commutes (a b m1 m2 : Manifest)
    (hroot : a.root_dir = b.root_dir)
    (hnda : (a.hashes.map Prod.fst).Nodup) (hndb : (b.hashes.map Prod.fst).Nodup)
    (hnoconf : ∀ k va vb, dlookup k a.hashes = some va → dlookup k b.hashes = some vb →
      va = vb)
    (h1 : a.merge_from b = Except.ok m1) (h2 : b.merge_from a = Except.ok m2) :
    serializeManifestExternal m1.to_manifest_external =
      serializeManifestExternal m2.to_manifest_external ∧
    ∀ fs, dlookup [m1.root_dir, "MANIFEST.json"] ((m1.write_manifest fs).fs) =
        some (serializeManifestExternal m1.to_manifest_external) ∧
      dlookup [m2.root_dir, "MANIFEST.json"] ((m2.write_manifest fs).fs) =
        some (serializeManifestExternal m2.to_manifest_external) := by
  obtain ⟨hr1, hb1, hl1, hnd1⟩ := merge_from_ok_spec a b hroot hnda hndb m1 h1
  obtain ⟨hr2, hb2, hl2, hnd2⟩ := merge_from_ok_spec b a hroot.symm hndb hnda m2 h2
  have hlook : ∀ k, dlookup k m1.hashes = dlookup k m2.hashes := by
    intro k
    rw [hl1 k, hl2 k]
    cases hvb : dlookup k b.hashes with
    | none => cases hva : dlookup k a.hashes <;> simp [Option.or]
    | some vb =>
      cases hva : dlookup k a.hashes with
      | none => simp [Option.or]
      | some va => simp [Option.or, hnoconf k va vb hva hvb]
  have hser : serializeManifestExternal m1.to_manifest_external =
      serializeManifestExternal m2.to_manifest_external := by
    unfold serializeManifestExternal Manifest.to_manifest_external
    dsimp only
    rw [canonicalEntries_ext hnd1 hnd2 hlook, hb1, hb2, Nat.add_comm]
  exact ⟨hser, fun fs => ⟨write_manifest_writes m1 fs, write_manifest_writes m2 fs⟩⟩

/-- Two non-conflicting concrete partial manifests for the C4 witness. -/
def c4b : Manifest := ⟨"r", [("f.json", ⟨"h1", 1⟩), ("h.json", ⟨"h4", 4⟩)], 5⟩

/-- The merge of `c3a` and `c4b`, in that order. -/
def c4m1 : Manifest :=
  ⟨"r", [("f.json", ⟨"h1", 1⟩), ("g.json", ⟨"h2", 2⟩), ("h.json", ⟨"h4", 4⟩)], 8⟩

/-- The merge of `c4b` and `c3a`, in that order. -/
def c4m2 : Manifest :=
  ⟨"r", [("f.json", ⟨"h1", 1⟩), ("h.json", ⟨"h4", 4⟩), ("g.json", ⟨"h2", 2⟩)], 8⟩

/-- C4 witness: the commutativity theorem applied at concrete non-conflicting
manifests (both merge orders succeed and seal to the same bytes). -/
theorem claim_C4_witness :
    c3a.merge_from c4b = Except.ok c4m1 ∧ c4b.merge_from c3a = Except.ok c4m2 ∧
      serializeManifestExternal c4m1.to_manifest_external =
        serializeManifestExternal c4m2.to_manifest_external := by
  have hm1 : c3a.merge_from c4b = Except.ok c4m1 := rfl
  have hm2 : c4b.merge_from c3a = Except.ok c4m2 := rfl
  have hnc : ¬ ∃ k va vb, dlookup k c3a.hashes = some va ∧
      dlookup k c4b.hashes = some vb ∧ va ≠ vb := by
    intro hconf
    rcases (merge_from_error_iff c3a c4b rfl (by decide)).mpr hconf with ⟨e, he⟩
    rw [hm1] at he
    exact Except.noConfusion he
  refine ⟨hm1, hm2, ?_⟩
  exact (claim_C4_merge_commutes c3a c4b c4m1 c4m2 rfl (by decide) (by decide)
    (fun k va vb hva hvb => by
      by_contra hne
      exact hnc ⟨k, va, vb, hva, hvb, hne⟩) hm1 hm2).1

/-! ### C9: sharded ballot paths -/

/-- The sharded path of a ballot under a root directory:
`<root>/ballots/<first four characters of the id>/<id>.json`. -/
def ballotPath (root_dir : String) (b : CiphertextAcceptedBallot) : List String :=
  [root_dir, "ballots", strTake b.object_id 4, b.object_id ++ ".json"]

theorem write_ciphertext_ballot_fs (m : Manifest) (fs : FS) (b : CiphertextAcceptedBallot) :
    (m.write_ciphertext_ballot fs b).2 =
      dinsert (ballotPath m.root_dir b) (serializeBallot b) fs ∧
    (m.write_ciphertext_ballot fs b).1.root_dir = m.root_dir := ⟨rfl, rfl⟩

/-- Two ballots with different identifiers have different sharded paths. -/
theorem ballotPath_inj {root_dir : String} {b1 b2 : CiphertextAcceptedBallot}
    (h : b1.object_id ≠ b2.object_id) :
    ballotPath root_dir b1 ≠ ballotPath root_dir b2 := by
  intro he
  have h4 : b1.object_id ++ ".json" = b2.object_id ++ ".json" := by
    have h5 := congrArg (fun l => List.getLastD l "") he
    simpa [ballotPath] using h5
  exact h (string_append_cancel_right h4)

theorem writeBallotsFold_root (bs : List CiphertextAcceptedBallot) (acc : Manifest × FS) :
    (writeBallotsFold bs acc).1.root_dir = acc.1.root_dir := by
  induction bs generalizing acc with
  | nil => rfl
  | cons hd tl ih => exact (ih _).trans rfl

theorem writeBallotsFold_preserve (bs : List CiphertextAcceptedBallot)
    (acc : Manifest × FS) (p : List String)
    (h : ∀ b ∈ bs, ballotPath acc.1.root_dir b ≠ p) :
    dlookup p (writeBallotsFold bs acc).2 = dlookup p acc.2 := by
  induction bs generalizing acc with
  | nil => rfl
  | cons hd tl ih =>
    have hstep : writeBallotsFold (hd :: tl) acc =
        writeBallotsFold tl ((acc.1).write_ciphertext_ballot acc.2 hd) := rfl
    rw [hstep, ih _ (fun b hb => by
      rw [(write_ciphertext_ballot_fs acc.1 acc.2 hd).2]
      exact h b (List.mem_cons_of_mem hd hb))]
    rw [(write_ciphertext_ballot_fs acc.1 acc.2 hd).1]
    exact dlookup_dinsert_ne _ _ (h hd (List.mem_cons_self hd tl))

theorem writeBallotsFold_lookup (bs : List CiphertextAcceptedBallot)
    (acc : Manifest × FS) (b : CiphertextAcceptedBallot) (root : String)
    (hroot : acc.1.root_dir = root)
    (hmem : b ∈ bs) (hnd : (bs.map (fun x => x.object_id)).Nodup) :
    dlookup (ballotPath root b) (writeBallotsFold bs acc).2 =
      some (serializeBallot b) := by
  induction bs generalizing acc with
  | nil => simp at hmem
  | cons hd tl ih =>
    simp only [List.map_cons, List.nodup_cons] at hnd
    have hstep : writeBallotsFold (hd :: tl) acc =
        writeBallotsFold tl ((acc.1).write_ciphertext_ballot acc.2 hd) := rfl
    rcases List.mem_cons.mp hmem with he | he
    · subst he
      rw [hstep, writeBallotsFold_preserve _ _ _ (fun b2 hb2 => by
        rw [(write_ciphertext_ballot_fs acc.1 acc.2 b).2, hroot]
        exact ballotPath_inj (fun hid =>
          hnd.1 (hid ▸ List.mem_map.mpr ⟨b2, hb2, rfl⟩)))]
      rw [(write_ciphertext_ballot_fs acc.1 acc.2 b).1, hroot]
      exact dlookup_dinsert_self _ _ _
    · rw [hstep]
      exact ih ((acc.1).write_ciphertext_ballot acc.2 hd)
        (((write_ciphertext_ballot_fs acc.1 acc.2 hd).2).trans hroot) he hnd.2

/-- C9: every ballot written through the manifest — directly via
`write_ciphertext_ballot` or by the ballot loop of `write_fast_tally` — is
stored at `ballots/<first four characters of its object id>/<id>.json` under
the root directory, and `load_ciphertext_ballot` reads exactly that sharded
path: writing a ballot and loading its identifier returns it. -/
theorem claim_C9_sharded_paths :
    (∀ (m : Manifest) (fs : FS) (b : CiphertextAcceptedBallot),
      dlookup (ballotPath m.root_dir b) (m.write_ciphertext_ballot fs b).2 =
        some (serializeBallot b)) ∧
    (∀ (results : FastTallyEverythingResults) (results_dir : String) (fs : FS)
      (b : CiphertextAcceptedBallot), b ∈ results.encrypted_ballots →
      ((results.encrypted_ballots.map (fun x => x.object_id)).Nodup) →
      dlookup (ballotPath results_dir b) (write_fast_tally results results_dir fs).1 =
        some (serializeBallot b)) ∧
    (∀ (m : Manifest) (fs : FS) (b : CiphertextAcceptedBallot),
      decodeBallot (serializeBallot b) = some b →
      ((m.write_ciphertext_ballot fs b).1).load_ciphertext_ballot
        ((m.write_ciphertext_ballot fs b).2) b.object_id = some b) := by
  refine ⟨?_, ?_, ?_⟩
  · intro m fs b
    rw [(write_ciphertext_ballot_fs m fs b).1]
    exact dlookup_dinsert_self _ _ _
  · intro results results_dir fs b hmem hnd
    unfold write_fast_tally
    dsimp only
    rw [show ∀ (m0 : Manifest) (fs0 : FS), (m0.write_manifest fs0).fs =
        dinsert [m0.root_dir, "MANIFEST.json"]
          (serializeManifestExternal m0.to_manifest_external) fs0 from fun _ _ => rfl]
    rw [dlookup_dinsert_ne _ _ (by simp [ballotPath])]
    exact writeBallotsFold_lookup results.encrypted_ballots _ b results_dir rfl hmem hnd
  · intro m fs b hdec
    have hread : ((m.write_ciphertext_ballot fs b).1).read_file
        ((m.write_ciphertext_ballot fs b).2) (b.object_id ++ ".json")
        ["ballots", strTake b.object_id 4] = some (serializeBallot b) := by
      refine (read_file_some_iff _ _ _ _ _).mpr ⟨?_, ?_⟩
      · rw [(write_ciphertext_ballot_fs m fs b).1]
        exact dlookup_dinsert_self _ _ _
      · refine ⟨⟨sha256_hash (serializeBallot b), utf8Len (serializeBallot b)⟩, ?_, rfl, rfl⟩
        exact dlookup_dinsert_self _ _ _
    unfold Manifest.load_ciphertext_ballot Manifest.read_json_file
    dsimp only
    rw [hread]
    simpa using hdec

/-- A concrete ciphertext ballot for witnesses. -/
def exampleBallot1 : CiphertextAcceptedBallot := ⟨"b0000001", "AAAA"⟩

/-- A second concrete ciphertext ballot. -/
def exampleBallot2 : CiphertextAcceptedBallot := ⟨"b0000002", "BBBB"⟩

/-- Concrete tally results for witnesses: two ballots and tiny artifacts. -/
def exampleResults : FastTallyEverythingResults :=
  { metadata := ⟨"\x7bm\x7d"⟩
    election_description := ⟨"\x7bd\x7d"⟩
    encrypted_ballots := [exampleBallot1, exampleBallot2]
    tally := ⟨"\x7bt\x7d"⟩
    context := ⟨"\x7bc\x7d"⟩ }

/-- C9 witness: the sharded-path theorem applied at a concrete ballot and at
the concrete two-ballot tally. -/
theorem claim_C9_witness :
    dlookup (ballotPath "r" exampleBallot1)
        ((make_fresh_manifest "r").write_ciphertext_ballot [] exampleBallot1).2 =
      some (serializeBallot exampleBallot1) ∧
    dlookup (ballotPath "tally" exampleBallot2)
        (write_fast_tally exampleResults "tally" []).1 =
      some (serializeBallot exampleBallot2) ∧
    ((make_fresh_manifest "r").write_ciphertext_ballot [] exampleBallot1).1.load_ciphertext_ballot
        ((make_fresh_manifest "r").write_ciphertext_ballot [] exampleBallot1).2 "b0000001" =
      some exampleBallot1 :=
  ⟨claim_C9_sharded_paths.1 (make_fresh_manifest "r") [] exampleBallot1,
    claim_C9_sharded_paths.2.1 exampleResults "tally" [] exampleBallot2
      (by decide) (by decide),
    claim_C9_sharded_paths.2.2 (make_fresh_manifest "r") [] exampleBallot1 (by decide)⟩

/-! ### C6: the constants check -/

/-- What `load_fast_tally` reads for `constants.json`: the manifest is
rebuilt from `MANIFEST.json` and the constants artifact is read through it
(hash-verified) and deserialized. -/
def load_constants (fs : FS) (results_dir : String) : Option ElectionConstants :=
  (make_existing_manifest fs results_dir).bind fun m =>
    m.read_json_file fs CRYPTO_CONSTANTS decodeConstants []

/-- C6: when the stored `constants.json` deserializes to group parameters
different from the compiled-in `ElectionConstants`, `load_fast_tally`
refuses the directory and returns `none`; and whenever a load succeeds, the
stored constants deserialized to exactly the compiled-in record (the check
sits before every remaining artifact read). -/
theorem claim_C6_constants :
    (∀ (fs : FS) (root : String) (cp : Bool)
      (apv : FastTallyEverythingResults → Bool) (c : ElectionConstants),
      load_constants fs root = some c → c ≠ defaultElectionConstants →
      load_fast_tally fs root cp apv = none) ∧
    (∀ (fs : FS) (root : String) (cp : Bool)
      (apv : FastTallyEverythingResults → Bool) (r : FastTallyEverythingResults),
      load_fast_tally fs root cp apv = some r →
      load_constants fs root = some defaultElectionConstants) := by
  constructor
  · intro fs root cp apv c hc hne
    unfold load_fast_tally
    by_cases hde : dirExists fs root = true
    · unfold load_constants at hc
      cases hm : make_existing_manifest fs root with
      | none => rw [hm] at hc; simp at hc
      | some m =>
        rw [hm] at hc
        simp only [Option.some_bind] at hc
        simp only [hde, not_true_eq_false, if_false, hm]
        cases hed : m.read_json_file fs ELECTION_DESCRIPTION decodeElectionDescription [] with
        | none => rfl
        | some ed =>
          rw [hc]
          simp [hne]
    · simp [hde]
  · intro fs root cp apv r hr
    unfold load_fast_tally at hr
    by_cases hde : dirExists fs root = true
    · simp only [hde, not_true_eq_false, if_false] at hr
      cases hm : make_existing_manifest fs root with
      | none => rw [hm] at hr; simp at hr
      | some m =>
        rw [hm] at hr
        dsimp only at hr
        cases hed : m.read_json_file fs ELECTION_DESCRIPTION decodeElectionDescription [] with
        | none => rw [hed] at hr; simp at hr
        | some ed =>
          rw [hed] at hr
          cases hc : m.read_json_file fs CRYPTO_CONSTANTS decodeConstants [] with
          | none => rw [hc] at hr; simp at hr
          | some c =>
            rw [hc] at hr
            dsimp only at hr
            by_cases hcd : c = defaultElectionConstants
            · unfold load_constants
              rw [hm]
              simp only [Option.some_bind]
              rw [hc, hcd]
            · rw [if_pos hcd] at hr
              simp at hr
    · simp [hde] at hr

/-! ### C1: ballot files are not hash-checked by `load_fast_tally` -/

/-- Whether a directory is inhabited depends only on the stored paths. -/
theorem dirExists_eq_of_keys {fs1 fs2 : FS} (root : String)
    (h : fs1.map Prod.fst = fs2.map Prod.fst) :
    dirExists fs1 root = dirExists fs2 root := by
  induction fs1 generalizing fs2 with
  | nil =>
    have h2 : fs2 = [] := by
      cases fs2 with
      | nil => rfl
      | cons a b => simp at h
    rw [h2]
  | cons hd tl ih =>
    cases fs2 with
    | nil => simp at h
    | cons hd2 tl2 =>
      simp only [List.map_cons, List.cons.injEq] at h
      unfold dirExists
      simp only [List.any_cons]
      rw [h.1]
      have h3 := ih h.2
      unfold dirExists at h3
      rw [h3]

theorem make_existing_root {fs : FS} {root : String} {m : Manifest}
    (h : make_existing_manifest fs root = some m) : m.root_dir = root := by
  unfold make_existing_manifest load_json_helper at h
  rcases Option.map_eq_some'.mp h with ⟨me, _, hm⟩
  rw [← hm]
  rfl

/-- Reading a top-level artifact through the manifest is unaffected by a
write to a different path. -/
theorem read_json_file_dinsert_ne {α : Type} (m : Manifest) (fs : FS) (name : String)
    (decode : String → Option α) (p : List String) (v : String)
    (hne : p ≠ compose_filename m.root_dir name []) :
    m.read_json_file (dinsert p v fs) name decode [] =
      m.read_json_file fs name decode [] := by
  unfold Manifest.read_json_file Manifest.read_file load_file_helper
  dsimp only
  rw [dlookup_dinsert_ne _ _ hne]

/-- C1 (amended): `load_fast_tally` hash-verifies the five top-level
artifacts through the manifest, but reads the files under `ballots/` with
`load_json_helper`, never consulting the manifest; hence replacing the bytes
of any existing `ballots/` file with any other deserializable bytes leaves
the load (with proof checking off, isolating the storage layer) succeeding —
no storage-integrity failure is raised for the altered file. -/
theorem claim_C1_ballots_not_hash_checked
    (fs : FS) (root : String) (apv : FastTallyEverythingResults → Bool)
    (p : List String) (v : String)
    (hsome : (load_fast_tally fs root false apv).isSome = true)
    (hp : p.take 2 = [root, "ballots"])
    (hex : (dlookup p fs).isSome = true)
    (hdec : (decodeBallot v).isSome = true) :
    (load_fast_tally (dinsert p v fs) root false apv).isSome = true := by
  have hkeys : (dinsert p v fs).map Prod.fst = fs.map Prod.fst :=
    map_fst_dinsert_of_lookup_isSome v hex
  have h1 : dirExists (dinsert p v fs) root = dirExists fs root :=
    dirExists_eq_of_keys root hkeys
  have hpne : ∀ name : String, name ≠ "ballots" → p ≠ [root, name] := by
    intro name hname he
    rw [he] at hp
    simp at hp
    exact hname hp
  have h2 : make_existing_manifest (dinsert p v fs) root =
      make_existing_manifest fs root := by
    unfold make_existing_manifest load_json_helper
    rw [dlookup_dinsert_ne _ _ (hpne "MANIFEST.json" (by decide))]
  have h4 : all_files_in_directory (dinsert p v fs) [root, "ballots"] =
      all_files_in_directory fs [root, "ballots"] := by
    unfold all_files_in_directory
    rw [hkeys]
  unfold load_fast_tally at hsome ⊢
  rw [h1, h2]
  by_cases hde : dirExists fs root = true
  · simp only [hde, not_true_eq_false, if_false] at hsome ⊢
    cases hm : make_existing_manifest fs root with
    | none => rw [hm] at hsome; simp at hsome
    | some m =>
      rw [hm] at hsome
      dsimp only at hsome ⊢
      have hroot := make_existing_root hm
      have hne5 : ∀ name : String, name ≠ "ballots" →
          p ≠ compose_filename m.root_dir name [] := by
        intro name hname
        rw [show compose_filename m.root_dir name [] = [m.root_dir, name] from rfl, hroot]
        exact hpne name hname
      rw [read_json_file_dinsert_ne m fs ELECTION_DESCRIPTION decodeElectionDescription p v
        (hne5 _ (by decide))]
      cases hed : m.read_json_file fs ELECTION_DESCRIPTION decodeElectionDescription [] with
      | none => rw [hed] at hsome; simp at hsome
      | some ed =>
        rw [hed] at hsome
        dsimp only at hsome ⊢
        rw [read_json_file_dinsert_ne m fs CRYPTO_CONSTANTS decodeConstants p v
          (hne5 _ (by decide))]
        cases hc : m.read_json_file fs CRYPTO_CONSTANTS decodeConstants [] with
        | none => rw [hc] at hsome; simp at hsome
        | some c =>
          rw [hc] at hsome
          dsimp only at hsome ⊢
          by_cases hcd : c = defaultElectionConstants
          · rw [if_neg (by simpa using hcd)] at hsome ⊢
            rw [read_json_file_dinsert_ne m fs CRYPTO_CONTEXT decodeContext p v
              (hne5 _ (by decide))]
            cases hcec : m.read_json_file fs CRYPTO_CONTEXT decodeContext [] with
            | none => rw [hcec] at hsome; simp at hsome
            | some cec =>
              rw [hcec] at hsome
              dsimp only at hsome ⊢
              rw [read_json_file_dinsert_ne m fs ENCRYPTED_TALLY decodeTally p v
                (hne5 _ (by decide))]
              cases ht : m.read_json_file fs ENCRYPTED_TALLY decodeTally [] with
              | none => rw [ht] at hsome; simp at hsome
              | some t =>
                rw [ht] at hsome
                dsimp only at hsome ⊢
                rw [read_json_file_dinsert_ne m fs ELECTION_METADATA decodeMetadata p v
                  (hne5 _ (by decide))]
                cases hmd : m.read_json_file fs ELECTION_METADATA decodeMetadata [] with
                | none => rw [hmd] at hsome; simp at hsome
                | some md =>
                  rw [hmd] at hsome
                  dsimp only at hsome ⊢
                  rw [h4]
                  have hball : ((all_files_in_directory fs [root, "ballots"]).map
                      (fun s => load_json_helper fs s decodeBallot)).any Option.isNone =
                        false := by
                    cases hany : ((all_files_in_directory fs [root, "ballots"]).map
                        (fun s => load_json_helper fs s decodeBallot)).any Option.isNone with
                    | false => rfl
                    | true => rw [hany] at hsome; simp at hsome
                  have hball2 : ((all_files_in_directory fs [root, "ballots"]).map
                      (fun s => load_json_helper (dinsert p v fs) s decodeBallot)).any
                        Option.isNone = false := by
                    rw [List.any_eq_false] at hball ⊢
                    intro x hx
                    rcases List.mem_map.mp hx with ⟨s, hs, hxs⟩
                    by_cases hsp : s = p
                    · subst hsp
                      rw [← hxs]
                      unfold load_json_helper
                      rw [dlookup_dinsert_self]
                      cases hdv : decodeBallot v with
                      | none => rw [hdv] at hdec; simp at hdec
                      | some b => simp [hdv]
                    · rw [← hxs]
                      unfold load_json_helper
                      rw [dlookup_dinsert_ne _ _ (fun he => hsp he.symm)]
                      exact hball _ (List.mem_map.mpr ⟨s, hs, rfl⟩)
                  rw [hball, if_neg (by simp)] at hsome
                  rw [hball2, if_neg (by simp)]
                  simp
          · rw [if_pos (by simpa using hcd)] at hsome
            simp at hsome
  · simp [hde] at hsome

/-- The sealed tally directory produced from `exampleResults`. -/
def fsSealed : FS := (write_fast_tally exampleResults "tally" []).1

/-- Alternative contents for the first ballot file: a deserializable ballot
whose payload differs in one byte. -/
def alteredBallotFile : String := serializeBallot ⟨"b0000001", "AAAC"⟩

/-- The sealed directory with the first ballot file's bytes replaced. -/
def fsTampered : FS :=
  dinsert ["tally", "ballots", "b000", "b0000001.json"] alteredBallotFile fsSealed

/-- C1 counterexample: in a sealed directory produced by `write_fast_tally`,
replacing the bytes of `ballots/b000/b0000001.json` with different (still
deserializable) bytes does not make `load_fast_tally` fail: both the intact
and the tampered directory load successfully with proof checking off, so no
storage-integrity check ever ran against the ballot file's manifest entry. -/
theorem claim_C1_counterexample :
    dlookup ["tally", "ballots", "b000", "b0000001.json"] fsSealed =
      some (serializeBallot exampleBallot1) ∧
    serializeBallot exampleBallot1 ≠ alteredBallotFile ∧
    (load_fast_tally fsSealed "tally" false (fun _ => true)).isSome = true ∧
    (load_fast_tally fsTampered "tally" false (fun _ => true)).isSome = true := by
  refine ⟨by decide, by decide, by decide, by decide⟩

/-- C1 witness: the amended theorem applied to the concrete sealed
directory and the concrete tampering. -/
theorem claim_C1_witness :
    (load_fast_tally (dinsert ["tally", "ballots", "b000", "b0000001.json"]
      alteredBallotFile fsSealed) "tally" false (fun _ => true)).isSome = true :=
  claim_C1_ballots_not_hash_checked fsSealed "tally" (fun _ => true)
    ["tally", "ballots", "b000", "b0000001.json"] alteredBallotFile
    (by decide) (by decide) (by decide) (by decide)

/-- Group parameters that differ from the compiled-in ones. -/
def badConstants : ElectionConstants := ⟨5, 2, 2, 3⟩

/-- A sealed directory whose `constants.json` holds `badConstants`. -/
def fsBadConstants : FS :=
  (((make_fresh_manifest "t").write_file [] CRYPTO_CONSTANTS
    (serializeConstants badConstants) []).manifest.write_manifest
      ((make_fresh_manifest "t").write_file [] CRYPTO_CONSTANTS
        (serializeConstants badConstants) []).fs).fs

/-- C6 witness: the refusal applied at a concrete directory holding wrong
group parameters. -/
theorem claim_C6_witness :
    load_constants fsBadConstants "t" = some badConstants ∧
    badConstants ≠ defaultElectionConstants ∧
    load_fast_tally fsBadConstants "t" true (fun _ => true) = none :=
  ⟨by decide, by decide,
    claim_C6_constants.1 fsBadConstants "t" true (fun _ => true) badConstants
      (by decide) (by decide)⟩

/-! ### C7: audit-report value normalization -/

/-- C7 (amended): in every parsed sampled-ballot row, each `audit_result`
value is `_audit_fix_strings` of the cell — so both empty cells and the
literal `CONTEST_NOT_ON_BALLOT` become null there — while each `cvr_result`
and `discrepancy` value is plain `fix_strings` of the cell: empty cells
become null, but the literal `CONTEST_NOT_ON_BALLOT` is kept as a string.
(The hypotheses are the dict invariants: distinct column names, and distinct
contest names after stripping the markers.) -/
theorem claim_C7_normalization (row : List (String × PyVal))
    (hnd : (row.map Prod.fst).Nodup)
    (hnda : (((row.map Prod.fst).filter fun k =>
      pyStartsWith k auditResultKey).map fix_contest_name).Nodup)
    (hndc : (((row.map Prod.fst).filter fun k =>
      pyStartsWith k cvrResultKey).map fix_contest_name).Nodup)
    (hndd : (((row.map Prod.fst).filter fun k =>
      pyStartsWith k discrepancyKey).map fix_contest_name).Nodup) :
    (∀ k cell, (k, cell) ∈ row → pyStartsWith k auditResultKey = true →
      dlookup (fix_contest_name k) (ArloSampledBallot.ofRow row).audit_result =
        some (audit_fix_strings cell)) ∧
    (∀ k cell, (k, cell) ∈ row → pyStartsWith k cvrResultKey = true →
      dlookup (fix_contest_name k) (ArloSampledBallot.ofRow row).cvr_result =
        some (fix_strings cell)) ∧
    (∀ k cell, (k, cell) ∈ row → pyStartsWith k discrepancyKey = true →
      dlookup (fix_contest_name k) (ArloSampledBallot.ofRow row).discrepancy =
        some (fix_strings cell)) ∧
    audit_fix_strings (PyVal.str "CONTEST_NOT_ON_BALLOT") = none ∧
    audit_fix_strings PyVal.nan = none ∧
    fix_strings PyVal.nan = none ∧
    (∀ s, fix_strings (PyVal.str s) = some s) := by
  have hcell : ∀ k cell, (k, cell) ∈ row → (dlookup k row).getD PyVal.nan = cell := by
    intro k cell hm
    rw [dlookup_eq_some_of_mem hm hnd]
    rfl
  refine ⟨?_, ?_, ?_, by decide, by decide, by decide, fun s => rfl⟩
  · intro k cell hm hpre
    have hk : k ∈ (row.map Prod.fst).filter fun k => pyStartsWith k auditResultKey :=
      List.mem_filter.mpr ⟨List.mem_map.mpr ⟨(k, cell), hm, rfl⟩, hpre⟩
    unfold ArloSampledBallot.ofRow
    dsimp only
    rw [dlookup_dictComp _ _ hk hnda, hcell k cell hm]
  · intro k cell hm hpre
    have hk : k ∈ (row.map Prod.fst).filter fun k => pyStartsWith k cvrResultKey :=
      List.mem_filter.mpr ⟨List.mem_map.mpr ⟨(k, cell), hm, rfl⟩, hpre⟩
    unfold ArloSampledBallot.ofRow
    dsimp only
    rw [dlookup_dictComp _ _ hk hndc, hcell k cell hm]
  · intro k cell hm hpre
    have hk : k ∈ (row.map Prod.fst).filter fun k => pyStartsWith k discrepancyKey :=
      List.mem_filter.mpr ⟨List.mem_map.mpr ⟨(k, cell), hm, rfl⟩, hpre⟩
    unfold ArloSampledBallot.ofRow
    dsimp only
    rw [dlookup_dictComp _ _ hk hndd, hcell k cell hm]

/-- A row whose CVR-result and discrepancy cells hold the literal
`CONTEST_NOT_ON_BALLOT`. -/
def c7row : List (String × PyVal) :=
  [("Imprinted ID", PyVal.str "b1"),
   ("CVR Result: C1", PyVal.str "CONTEST_NOT_ON_BALLOT"),
   ("Discrepancy: C1", PyVal.str "CONTEST_NOT_ON_BALLOT")]

/-- C7 counterexample: a `CVR Result` (or `Discrepancy`) cell equal to the
literal `CONTEST_NOT_ON_BALLOT` is kept as that string — it is not
normalized to null, contrary to the claim that all three mappings normalize
it. -/
theorem claim_C7_counterexample :
    (ArloSampledBallot.ofRow c7row).cvr_result =
      [("C1", some "CONTEST_NOT_ON_BALLOT")] ∧
    (ArloSampledBallot.ofRow c7row).discrepancy =
      [("C1", some "CONTEST_NOT_ON_BALLOT")] := by
  refine ⟨by decide, by decide⟩

/-- A row exercising the audit-result normalization. -/
def c7rowA : List (String × PyVal) :=
  [("Imprinted ID", PyVal.str "b1"),
   ("Audit Result: C1", PyVal.str "CONTEST_NOT_ON_BALLOT"),
   ("CVR Result: C1", PyVal.nan)]

/-- C7 witness: the amended theorem applied to a concrete row — the
`CONTEST_NOT_ON_BALLOT` audit cell and the empty CVR cell both come out
null. -/
theorem claim_C7_witness :
    dlookup "C1" (ArloSampledBallot.ofRow c7rowA).audit_result = some none ∧
    dlookup "C1" (ArloSampledBallot.ofRow c7rowA).cvr_result = some none :=
  ⟨(claim_C7_normalization c7rowA (by decide) (by decide) (by decide) (by decide)).1
      "Audit Result: C1" (PyVal.str "CONTEST_NOT_ON_BALLOT") (by decide) (by decide),
    (claim_C7_normalization c7rowA (by decide) (by decide) (by decide) (by decide)).2.1
      "CVR Result: C1" PyVal.nan (by decide) (by decide)⟩

/-! ### C8: section consumption of the audit report -/

/-- C8 (amended): the parser takes everything from the first line starting
with the SAMPLED BALLOTS marker to the end of the file — the result never
depends on earlier sections, and when the SAMPLED BALLOTS section is the
last section of the file the returned list holds exactly one
`ArloSampledBallot` per data row of that section; lines of any section
placed after it, however, are fed to the CSV stage as well (see the
counterexample). -/
theorem claim_C8_tail_consumption (pre post : List String) (mid : String)
    (hpre : ∀ l ∈ pre, pyStartsWith l sampledBallotsMarker = false)
    (hmid : pyStartsWith mid sampledBallotsMarker = true)
    (hpost : post ≠ []) :
    audit_from_lines (pre ++ mid :: post) = csv_ballots post ∧
    (∀ hdr rows, read_csv post = some (hdr, rows) → imprintedIdKey ∈ hdr →
      audit_from_lines (pre ++ mid :: post) = some (rows.map ArloSampledBallot.ofRow)) := by
  have hidx : List.findIdx? (fun l => pyStartsWith l sampledBallotsMarker)
      (pre ++ mid :: post) = some pre.length := by
    simpa using findIdx?_go_prepend post hpre hmid 0
  have hpostlen : 0 < post.length := by
    cases post with
    | nil => exact absurd rfl hpost
    | cons a b => simp
  have hlen5 : (pre ++ mid :: post).length = pre.length + post.length + 1 := by
    simp [List.length_append, List.length_cons]
    omega
  have hne1 : ((pre.length : Int)) ≠ ((pre ++ mid :: post).length : Int) - 1 := by
    rw [hlen5]
    push_cast
    omega
  have hne2 : ((pre.length : Int)) ≠ -1 := by
    omega
  have hmain : audit_from_lines (pre ++ mid :: post) = csv_ballots post := by
    unfold audit_from_lines
    rw [hidx]
    dsimp only
    rw [if_neg hne1, if_neg hne2]
    have hdrop : List.drop (((pre.length : Int)).toNat + 1) (pre ++ mid :: post) = post := by
      rw [Int.toNat_natCast]
      exact List.drop_append 1
    rw [hdrop]
  refine ⟨hmain, fun hdr rows hcsv hmem => ?_⟩
  rw [hmain]
  unfold csv_ballots
  rw [hcsv]
  simp [hmem]

/-- An audit report carrying a further section after SAMPLED BALLOTS. -/
def c8input : String :=
  "######## CONTESTS ########\nfoo,bar\n######## SAMPLED BALLOTS ########\nImprinted ID,Audited?\nb1,AUDITED\n######## EXTRA ########\nb9,AUDITED"

/-- C8 counterexample: with a section following SAMPLED BALLOTS, the rows of
that later section are parsed as sampled-ballot rows too — the result holds
three ballots (the separator line and `b9` of the EXTRA section included)
instead of the single data row of the SAMPLED BALLOTS section. -/
theorem claim_C8_counterexample :
    (arlo_audit_report_to_results c8input).map
        (fun bs => bs.map fun b => b.imprintedId) =
      some [some "b1", some "######## EXTRA ########", some "b9"] := by
  decide

/-- C8 witness: the theorem applied at a concrete report whose SAMPLED
BALLOTS section is last — exactly one ballot per data row. -/
theorem claim_C8_witness :
    audit_from_lines (["######## CONTESTS ########", "foo,bar"] ++
        "######## SAMPLED BALLOTS ########" :: ["Imprinted ID,Audited?", "b1,AUDITED"]) =
      some [ArloSampledBallot.ofRow
        [("Imprinted ID", PyVal.str "b1"), ("Audited?", PyVal.str "AUDITED")]] :=
  (claim_C8_tail_consumption ["######## CONTESTS ########", "foo,bar"]
      ["Imprinted ID,Audited?", "b1,AUDITED"] "######## SAMPLED BALLOTS ########"
      (by decide) (by decide) (by decide)).2
    ["Imprinted ID", "Audited?"]
    [[("Imprinted ID", PyVal.str "b1"), ("Audited?", PyVal.str "AUDITED")]]
    (by decide) (by decide)

end ArloE2E
